import Mathlib

/-
Verification of the tileNet server against its natural-language specification.

The definitions below are a shallow embedding of the Python sources:
  - src/server/world.py        (World: object registry, matrix containment)
  - src/server/session.py      (Session.send_matrix_state)
  - src/server/server.py       (TileNetServer._remove_agent)
  - src/tilenet/protocol.py    (parse_objid)
  - src/server/games/pair_panicking/game.py (PairPanickingPlugin)

Python dicts are embedded as association lists, Python sets as duplicate-free
lists maintained by insert/discard helpers, and the asyncio broadcast calls as
explicit event traces returned alongside the new state.  Object attributes that
no claim mentions (colors of world objects outside the game grid, free-text
message payloads interpolating agent names, etc.) are carried as constants or
omitted, as noted at each definition.
-/

namespace TileNet

/-- Association-list lookup, modelling Python `dict.get` / `dict[...]`. -/
def lookupA {α : Type} : List (String × α) → String → Option α
  | [], _ => none
  | e :: rest, key => if e.1 = key then some e.2 else lookupA rest key

/-- Rewrite the value stored under a key with a function, leaving the list
unchanged when the key is absent. -/
def mapAt {α : Type} (l : List (String × α)) (key : String) (f : α → α) :
    List (String × α) :=
  l.map (fun e => if e.1 = key then (e.1, f e.2) else e)

/-- Replace the value stored under a key, leaving the list unchanged when the
key is absent.  Models assignment to an existing Python dict entry (the
callers in the source always guard with a presence check such as `if agent:`). -/
def updA {α : Type} (l : List (String × α)) (key : String) (v : α) :
    List (String × α) :=
  mapAt l key (fun _ => v)

/-- Python dict assignment `d[k] = v`: overwrite when present, append when new. -/
def insA {α : Type} (l : List (String × α)) (key : String) (v : α) :
    List (String × α) :=
  if (lookupA l key).isSome then updA l key v else l ++ [(key, v)]

/-- Keys of an association list. -/
def keysA {α : Type} (l : List (String × α)) : List String :=
  l.map Prod.fst

-- ---------------------------------------------------------------------------
-- tilenet/protocol.py
-- ---------------------------------------------------------------------------

/-- Type characters accepted by `parse_objid` (protocol.py VALID_OBJ_TYPES). -/
def VALID_OBJ_TYPES : List Char := ['m', 'a', 't', 'k', 'i']

/-- Decimal value of a digit list (underscores are filtered out by the caller). -/
def digitsVal (l : List Char) : Nat :=
  l.foldl (fun a c => 10 * a + (c.toNat - 48)) 0

/-- Tail of a CPython integer-literal digit run: digits with single internal
underscores (an underscore must be followed by a digit). -/
def digitTail : List Char → Bool
  | [] => true
  | c :: rest =>
      if c = '_' then
        match rest with
        | [] => false
        | d :: rest2 => d.isDigit && digitTail rest2
      else c.isDigit && digitTail rest

/-- A nonempty digit run as accepted by CPython `int`, with internal underscores. -/
def digitRun : List Char → Bool
  | [] => false
  | c :: rest => c.isDigit && digitTail rest

/-- Strip leading and trailing whitespace, as CPython `int` does to its input. -/
def stripWs (l : List Char) : List Char :=
  ((l.dropWhile Char.isWhitespace).reverse.dropWhile Char.isWhitespace).reverse

/-- Drop the underscores of an accepted digit run before evaluating it. -/
def stripU (l : List Char) : List Char :=
  l.filter (fun c => c ≠ '_')

/-- Model of CPython `int(s)` on a character list: optional surrounding
whitespace, an optional sign, then a digit run (ASCII digits; the exotic
Unicode digits CPython additionally accepts play no role in any claim). -/
def pyIntChars (l : List Char) : Option Int :=
  match stripWs l with
  | [] => none
  | c :: rest =>
      if c = '-' then
        if digitRun rest then some (-(digitsVal (stripU rest) : Int)) else none
      else if c = '+' then
        if digitRun rest then some ((digitsVal (stripU rest) : Int)) else none
      else
        if digitRun (c :: rest) then
          some ((digitsVal (stripU (c :: rest)) : Int))
        else none

/-- protocol.parse_objid: `none` models a raised ValueError. -/
def parse_objid (s : String) : Option (Char × Int) :=
  match s.data with
  | [] => none
  | [_] => none
  | c :: rest =>
      if c ∈ VALID_OBJ_TYPES then (pyIntChars rest).map (fun n => (c, n))
      else none

-- ---------------------------------------------------------------------------
-- server/world.py
-- ---------------------------------------------------------------------------

/-- The five TileNet object kinds (tilenet/objects.py dataclasses). -/
inductive ObjKind where
  | matrix
  | agent
  | token
  | key
  | image
  deriving DecidableEq, Repr

/-- Whether the dataclass of this kind declares a `container_matrix` field
(Agent, Token and Key do; Matrix and ImageObj do not), which is what the
`hasattr(obj, "container_matrix")` checks in world.py test. -/
def hasContainer : ObjKind → Bool
  | ObjKind.agent => true
  | ObjKind.token => true
  | ObjKind.key => true
  | _ => false

/-- A world object.  Visual attributes (name, colors, position, image) are not
mentioned by any claim about world.py and are omitted here; the game model
below carries them where a claim needs them. -/
structure Obj where
  kind : ObjKind
  container_matrix : String := ""
  deriving DecidableEq, Repr

/-- World state: the object table and the per-matrix reverse index
(`matrix_contents`), plus the set of matrix ids that have a game plugin. -/
structure World where
  objects : List (String × Obj)
  matrix_contents : List (String × List String)
  game_plugins : List String
  deriving DecidableEq, Repr

/-- Model of `self.matrix_contents.get(old, set()).discard(objid)`:
remove the objid from the entry keyed by `mid`, a no-op when absent. -/
def discardFrom (contents : List (String × List String)) (mid objid : String) :
    List (String × List String) :=
  mapAt contents mid (fun l => l.filter (fun x => x ≠ objid))

/-- Model of `self.matrix_contents[matrix_id].add(objid)` (set add). -/
def addTo (contents : List (String × List String)) (mid objid : String) :
    List (String × List String) :=
  mapAt contents mid (fun l => if objid ∈ l then l else l ++ [objid])

/-- Overwrite the object stored under objid (mutation of a looked-up object). -/
def setObj (objects : List (String × Obj)) (objid : String) (o : Obj) :
    List (String × Obj) :=
  mapAt objects objid (fun _ => o)

/-- World.place_in_matrix, translated line by line: first discard from the
current matrix when the object exists, has the back-reference field and it is
nonempty; then add to the target matrix only when that matrix id has a reverse
index entry; finally set the back-reference whenever the object has the field. -/
def place_in_matrix (w : World) (objid matrix_id : String) : World :=
  let w1 :=
    match lookupA w.objects objid with
    | some o =>
        if hasContainer o.kind = true ∧ o.container_matrix ≠ "" then
          { w with matrix_contents :=
              discardFrom w.matrix_contents o.container_matrix objid }
        else w
    | none => w
  let w2 :=
    if (lookupA w1.matrix_contents matrix_id).isSome then
      { w1 with matrix_contents := addTo w1.matrix_contents matrix_id objid }
    else w1
  match lookupA w2.objects objid with
  | some o =>
      if hasContainer o.kind = true then
        { w2 with objects :=
            setObj w2.objects objid { o with container_matrix := matrix_id } }
      else w2
  | none => w2

/-- World.remove_from_matrix: returns the new world and the old matrix id. -/
def remove_from_matrix (w : World) (objid : String) : World × Option String :=
  match lookupA w.objects objid with
  | some o =>
      if hasContainer o.kind = true ∧ o.container_matrix ≠ "" then
        ({ w with
            objects := setObj w.objects objid { o with container_matrix := "" },
            matrix_contents :=
              discardFrom w.matrix_contents o.container_matrix objid },
         some o.container_matrix)
      else (w, none)
  | none => (w, none)

/-- World.get_contents. -/
def get_contents (w : World) (mid : String) : List String :=
  (lookupA w.matrix_contents mid).getD []

/-- Kind of the object registered under an objid, if any. -/
def kindOf (w : World) (objid : String) : Option ObjKind :=
  (lookupA w.objects objid).map Obj.kind

/-- Shared body of World.get_agents_in_matrix / get_tokens_in_matrix /
get_images_in_matrix / get_keys_in_matrix: the contents filtered by an
isinstance check. -/
def of_kind_in_matrix (w : World) (mid : String) (k : ObjKind) : List String :=
  (get_contents w mid).filter (fun oid => kindOf w oid = some k)

def get_agents_in_matrix (w : World) (mid : String) : List String :=
  of_kind_in_matrix w mid ObjKind.agent

def get_tokens_in_matrix (w : World) (mid : String) : List String :=
  of_kind_in_matrix w mid ObjKind.token

def get_images_in_matrix (w : World) (mid : String) : List String :=
  of_kind_in_matrix w mid ObjKind.image

def get_keys_in_matrix (w : World) (mid : String) : List String :=
  of_kind_in_matrix w mid ObjKind.key

-- ---------------------------------------------------------------------------
-- server/session.py
-- ---------------------------------------------------------------------------

/-- Session.send_matrix_state, as the sequence of objids whose full object
definitions are emitted: nothing when `get_matrix` fails (no Matrix registered
under the id), else the matrix itself, then images, tokens, keys, agents. -/
def send_matrix_state (w : World) (matrix_id : String) : List String :=
  match lookupA w.objects matrix_id with
  | some o =>
      if o.kind = ObjKind.matrix then
        matrix_id ::
          (get_images_in_matrix w matrix_id ++ get_tokens_in_matrix w matrix_id
            ++ get_keys_in_matrix w matrix_id ++ get_agents_in_matrix w matrix_id)
      else []
  | none => []

/-- Rank of an object kind in the send_matrix_state emission order. -/
def kindRank : ObjKind → Nat
  | ObjKind.matrix => 0
  | ObjKind.image => 1
  | ObjKind.token => 2
  | ObjKind.key => 3
  | ObjKind.agent => 4

/-- Emission rank of an objid in a given world (5 for unregistered ids,
which send_matrix_state never emits). -/
def rankOf (w : World) (oid : String) : Nat :=
  match kindOf w oid with
  | some k => kindRank k
  | none => 5

-- ---------------------------------------------------------------------------
-- server/server.py  (TileNetServer._remove_agent)
-- ---------------------------------------------------------------------------

/-- Observable actions performed by TileNetServer._remove_agent, in order. -/
inductive SrvAct where
  | pluginLeave (mid aid : String)
  | removedFromMatrix (aid : String)
  | exitSet (recipient aid : String) (x : Int)
  | farewell (aid : String)
  | dropSession (aid : String)
  deriving DecidableEq, Repr

/-- Server state: the world plus the agent ids that currently have a Session. -/
structure Srv where
  world : World
  sessions : List String
  deriving DecidableEq, Repr

/-- TileNetServer._remove_agent, translated step by step: bail out unless the
objid names an Agent; if it is in a matrix, first invoke the matrix's plugin
on_agent_leave hook (when one is registered), then remove the agent from the
matrix and send each remaining occupant that has a session a `set` with x=-1,
then attempt the best-effort farewell, then discard the Session.  The returned
action list records exactly these steps in program order. -/
def remove_agent (s : Srv) (agent_id : String) : Srv × List SrvAct :=
  match lookupA s.world.objects agent_id with
  | none => (s, [])
  | some o =>
      if o.kind = ObjKind.agent then
        let mid := o.container_matrix
        let acts1 :=
          if mid ≠ "" ∧ mid ∈ s.world.game_plugins then
            [SrvAct.pluginLeave mid agent_id]
          else []
        let step2 :=
          if mid ≠ "" then
            let w2 := (remove_from_matrix s.world agent_id).1
            let peers := (get_agents_in_matrix w2 mid).filter
              (fun a => a ∈ s.sessions)
            (w2, SrvAct.removedFromMatrix agent_id ::
                  peers.map (fun p => SrvAct.exitSet p agent_id (-1)))
          else (s.world, [])
        ({ world := step2.1,
           sessions := s.sessions.filter (fun a => a ≠ agent_id) },
         acts1 ++ step2.2 ++ [SrvAct.farewell agent_id,
                              SrvAct.dropSession agent_id])
      else (s, [])

-- ---------------------------------------------------------------------------
-- World operation sequences (for the containment invariant)
-- ---------------------------------------------------------------------------

/-- The World mutations relevant to matrix containment.  Creation operations
carry the objid that `new_objid` would generate; `new_objid` always returns a
fresh nonempty id (a type character followed by a counter), which the step
function models by executing a creation only when its id is fresh and, for
matrices, nonempty. -/
inductive WOp where
  | createMatrixOp (mid : String)
  | createObjOp (oid : String) (k : ObjKind)
  | placeOp (oid mid : String)
  | removeOp (oid : String)
  deriving DecidableEq, Repr

/-- One World operation. -/
def stepW (w : World) : WOp → World
  | WOp.createMatrixOp mid =>
      if mid ≠ "" ∧ lookupA w.objects mid = none
          ∧ lookupA w.matrix_contents mid = none then
        { w with objects := w.objects ++ [(mid, { kind := ObjKind.matrix })],
                 matrix_contents := w.matrix_contents ++ [(mid, [])] }
      else w
  | WOp.createObjOp oid k =>
      if k ≠ ObjKind.matrix ∧ lookupA w.objects oid = none then
        { w with objects := w.objects ++ [(oid, { kind := k })] }
      else w
  | WOp.placeOp oid mid => place_in_matrix w oid mid
  | WOp.removeOp oid => (remove_from_matrix w oid).1

/-- Run a sequence of World operations. -/
def runW (w : World) : List WOp → World
  | [] => w
  | op :: rest => runW (stepW w op) rest

/-- The empty initial World. -/
def emptyW : World := { objects := [], matrix_contents := [], game_plugins := [] }

/-- Validity of one operation against the current world: a placement names an
already registered object and an existing matrix (which is how every caller in
the repository uses place_in_matrix); other operations are unrestricted. -/
def validOpHead (w : World) : WOp → Bool
  | WOp.placeOp oid mid =>
      (lookupA w.objects oid).isSome && (lookupA w.matrix_contents mid).isSome
  | _ => true

/-- Validity of an operation sequence, each op checked in the world it runs in. -/
def validOpsB (w : World) : List WOp → Bool
  | [] => true
  | op :: rest => validOpHead w op && validOpsB (stepW w op) rest

/-- No operation in the list removes the given objid from its matrix. -/
def noRemoveOf (oid : String) : List WOp → Bool
  | [] => true
  | op :: rest =>
      (match op with
       | WOp.removeOp oid2 => oid2 ≠ oid
       | _ => true)
      && noRemoveOf oid rest

/-- The objid has been placed at least once and not subsequently removed:
some placement of it is followed by no removal of it. -/
def placedNotRemovedB (oid : String) : List WOp → Bool
  | [] => false
  | op :: rest =>
      (match op with
       | WOp.placeOp oid2 _ => oid2 = oid && noRemoveOf oid rest
       | _ => false)
      || placedNotRemovedB oid rest

-- ---------------------------------------------------------------------------
-- server/games/pair_panicking/game.py
-- ---------------------------------------------------------------------------

def GRID_ROWS : Nat := 8
def GRID_COLS : Nat := 8
def TOTAL_SQUARES : Nat := 64
def START_ENERGY : Int := 10
def HIDDEN_NAME : String := "???"
def SOLVED_NAME : String := ""
def HIDDEN_BGCOLOR : String := "ff334455"
def HIDDEN_FGCOLOR : String := "ffaabbcc"
def SHOWING_BGCOLOR : String := "ff225588"
def SHOWING_FGCOLOR : String := "ffffffff"
def SOLVED_BGCOLOR : String := "33222222"
def SOLVED_FGCOLOR : String := "33666666"

/-- State of one grid square: self.state[row][col] in game.py. -/
inductive CellSt where
  | hidden
  | showing
  | solved
  deriving DecidableEq, Repr

/-- World-side attributes of a grid token that the game mutates. -/
structure Tok where
  name : String
  bgcolor : String
  fgcolor : String
  energy : Int
  image : String
  deriving DecidableEq, Repr

/-- Default token used only as the fallback of 2D indexing (the source would
raise IndexError out of range; all claims are about in-range cells). -/
def defaultTok : Tok :=
  { name := "", bgcolor := "", fgcolor := "", energy := 1, image := "" }

/-- Read a 2D grid cell with a fallback default. -/
def get2 {α : Type} (l : List (List α)) (r c : Nat) (d : α) : α :=
  (l.getD r []).getD c d

/-- Write a 2D grid cell (no-op out of range, like List.set). -/
def set2 {α : Type} (l : List (List α)) (r c : Nat) (v : α) : List (List α) :=
  l.set r ((l.getD r []).set c v)

/-- Events the plugin emits to sessions, in program order.  Messages that only
interpolate agent names are carried with their fixed text part; `resolveRun`
marks that the body of `_resolve` past its `len(showing) < 2` guard executed,
which is where a showing pair is actually resolved. -/
inductive GEv where
  | tokenSet (r c : Nat)
  | ctlSet (energy : Int)
  | energySet (aid : String) (energy : Int)
  | privEnergySet (aid : String) (energy : Int)
  | hearAll (msg : String)
  | hearOne (aid : String) (msg : String)
  | resolveRun (isMatch : Bool)
  deriving DecidableEq, Repr

/-- Tests whether an event is the resolution marker. -/
def isResolveRun : GEv → Bool
  | GEv.resolveRun _ => true
  | _ => false

/-- PairPanickingPlugin mutable state.  `timer_on` is true exactly while a
created timer task is pending (created and neither done nor cancelled).
`agent_energy` is the world-side Agent.energy table (`world.get_agent`);
`restart_energy` the world-side energy of the restart control token. -/
structure GState where
  board : List (List String)
  state : List (List CellSt)
  toks : List (List Tok)
  restart_energy : Int
  showing : List (Nat × Nat)
  trigger_agent : Option String
  timer_on : Bool
  scores : List (String × Int)
  agent_energy : List (String × Int)
  game_in_progress : Bool
  solved_count : Nat
  symbol_images : List (String × String)
  deriving DecidableEq, Repr

/-- Attributes written to a solved grid token in _handle_match. -/
def solvedTok : Tok :=
  { name := SOLVED_NAME, bgcolor := SOLVED_BGCOLOR, fgcolor := SOLVED_FGCOLOR,
    energy := 0, image := "" }

/-- Attributes written to a re-hidden grid token in _handle_mismatch
(energy is not touched there; hidden_image_id is the empty string). -/
def hiddenTok (t : Tok) : Tok :=
  { t with name := HIDDEN_NAME, bgcolor := HIDDEN_BGCOLOR,
           fgcolor := HIDDEN_FGCOLOR, image := "" }

/-- Score update of one tracked agent on a match: +2, +4 extra for the trigger. -/
def matchScore (trig : Option String) (e : String × Int) : String × Int :=
  (e.1, e.2 + 2 + (if trig = some e.1 then 4 else 0))

/-- Score update of one tracked agent on a mismatch: agents at 0 or below are
skipped; otherwise -1, and -2 for the trigger. -/
def mismatchScore (trig : Option String) (e : String × Int) : String × Int :=
  if e.2 ≤ 0 then e
  else (e.1, e.2 - (if trig = some e.1 then 2 else 1))

/-- Write a score table into the world-side agent energies (the per-agent
`agent.energy = self.scores[agent_id]` updates of the score loops). -/
def writeEnergies (ae : List (String × Int)) (scores : List (String × Int)) :
    List (String × Int) :=
  scores.foldl (fun acc e => updA acc e.1 e.2) ae

/-- Row-major list of all grid cells. -/
def allCells : List (Nat × Nat) :=
  (List.range GRID_ROWS).flatMap (fun r => (List.range GRID_COLS).map (fun c => (r, c)))

/-- One square of _reveal_all: reveal the symbol of a still-hidden square on
its token (the square's state stays "hidden"). -/
def reveal_step (p : GState × List GEv) (rc : Nat × Nat) : GState × List GEv :=
  if get2 p.1.state rc.1 rc.2 CellSt.solved = CellSt.hidden then
    let sym := get2 p.1.board rc.1 rc.2 ""
    let t := get2 p.1.toks rc.1 rc.2 defaultTok
    let t2 : Tok :=
      { t with name := sym,
               image := (lookupA p.1.symbol_images sym).getD "" }
    ({ p.1 with toks := set2 p.1.toks rc.1 rc.2 t2 },
     p.2 ++ [GEv.tokenSet rc.1 rc.2])
  else p

/-- PairPanickingPlugin._reveal_all over the whole grid. -/
def reveal_all (g : GState) : GState × List GEv :=
  allCells.foldl reveal_step (g, [])

/-- PairPanickingPlugin._game_over.  The winner computation only feeds the
announcement text, which is carried as a fixed message. -/
def game_over (g : GState) (has_winner : Bool) : GState × List GEv :=
  let g1 := { g with game_in_progress := false }
  let step :=
    match has_winner with
    | true => (g1, [GEv.hearAll "Game Over! wins!"])
    | false =>
        let p := reveal_all g1
        (p.1, GEv.hearAll "Game Over! No active players remain." :: p.2)
  ({ step.1 with restart_energy := 1 }, step.2 ++ [GEv.ctlSet 1])

/-- PairPanickingPlugin._handle_match: mark both squares solved, award +2 to
every tracked score with +4 extra for the trigger, announce, and end the game
when all 64 squares are solved. -/
def handle_match (g : GState) (r1 c1 r2 c2 : Nat) : GState × List GEv :=
  let g1 := { g with
    state := set2 (set2 g.state r1 c1 CellSt.solved) r2 c2 CellSt.solved,
    toks := set2 (set2 g.toks r1 c1 solvedTok) r2 c2 solvedTok,
    solved_count := g.solved_count + 2 }
  let evs1 := [GEv.tokenSet r1 c1, GEv.tokenSet r2 c2]
  let newScores := g1.scores.map (matchScore g1.trigger_agent)
  let g2 := { g1 with
    scores := newScores,
    agent_energy := writeEnergies g1.agent_energy newScores }
  let evs2 := newScores.map (fun e => GEv.energySet e.1 e.2)
  let evs3 := [GEv.hearAll "found a match!"]
  if TOTAL_SQUARES ≤ g2.solved_count then
    let p := game_over g2 true
    (p.1, evs1 ++ evs2 ++ evs3 ++ p.2)
  else (g2, evs1 ++ evs2 ++ evs3)

/-- PairPanickingPlugin._handle_mismatch: re-hide both squares, deduct 1 from
every currently positive score (2 for the trigger), announce eliminations, and
end the game if no active player remains. -/
def handle_mismatch (g : GState) (r1 c1 r2 c2 : Nat) : GState × List GEv :=
  let t1 := get2 g.toks r1 c1 defaultTok
  let gA := { g with
    state := set2 g.state r1 c1 CellSt.hidden,
    toks := set2 g.toks r1 c1 (hiddenTok t1) }
  let t2 := get2 gA.toks r2 c2 defaultTok
  let g1 := { gA with
    state := set2 gA.state r2 c2 CellSt.hidden,
    toks := set2 gA.toks r2 c2 (hiddenTok t2) }
  let evs1 := [GEv.tokenSet r1 c1, GEv.tokenSet r2 c2]
  let newScores := g1.scores.map (mismatchScore g1.trigger_agent)
  let g2 := { g1 with
    scores := newScores,
    agent_energy := writeEnergies g1.agent_energy
      (g1.scores.filter (fun e => 0 < e.2) |>.map (mismatchScore g1.trigger_agent)) }
  let evs2 := (g1.scores.filter (fun e => 0 < e.2)).map
    (fun e => GEv.energySet e.1 (mismatchScore g1.trigger_agent e).2)
  let newlyInactive := (g1.scores.filter
    (fun e => 0 < e.2 ∧ (mismatchScore g1.trigger_agent e).2 ≤ 0)).map Prod.fst
  let evs3 := newlyInactive.map (fun _ => GEv.hearAll "has been eliminated!")
  if (newScores.filter (fun e => 0 < e.2)).isEmpty && g2.game_in_progress then
    let p := game_over g2 false
    (p.1, evs1 ++ evs2 ++ evs3 ++ p.2)
  else (g2, evs1 ++ evs2 ++ evs3)

/-- PairPanickingPlugin._resolve: cancel a pending timer, return early when
fewer than two squares are showing, otherwise clear the showing list and
dispatch on whether the two symbols match. -/
def resolve (g : GState) : GState × List GEv :=
  let g0 := { g with timer_on := false }
  match g0.showing with
  | p1 :: p2 :: _ =>
      let g1 := { g0 with showing := [] }
      let sym1 := get2 g1.board p1.1 p1.2 ""
      let sym2 := get2 g1.board p2.1 p2.2 ""
      if sym1 = sym2 then
        let p := handle_match g1 p1.1 p1.2 p2.1 p2.2
        (p.1, GEv.resolveRun true :: p.2)
      else
        let p := handle_mismatch g1 p1.1 p1.2 p2.1 p2.2
        (p.1, GEv.resolveRun false :: p.2)
  | _ => (g0, [])

/-- PairPanickingPlugin._timer_coro on natural expiry: the resolution body runs
only while the timer is still pending; a cancelled timer (timer_on = false)
never runs it. -/
def timer_fire (g : GState) : GState × List GEv :=
  if g.timer_on then resolve g else (g, [])

/-- PairPanickingPlugin.on_click for a grid square (the token_positions hit of
on_click; control tokens are dispatched to their own handlers below): ignore
the click unless a game is in progress, the clicking agent's score is positive
and the square is hidden; resolve first when two squares are already showing;
then reveal the square and start the timer on the second reveal. -/
def on_click_grid (g : GState) (agent_id : String) (r c : Nat) :
    GState × List GEv :=
  if g.game_in_progress = false then (g, [])
  else if (lookupA g.scores agent_id).getD 0 ≤ 0 then (g, [])
  else if get2 g.state r c CellSt.solved ≠ CellSt.hidden then (g, [])
  else
    let p0 := if 2 ≤ g.showing.length then resolve g else (g, [])
    let g1 := p0.1
    let sym := get2 g1.board r c ""
    let t := get2 g1.toks r c defaultTok
    let g2 := { g1 with
      state := set2 g1.state r c CellSt.showing,
      showing := g1.showing ++ [(r, c)],
      toks := set2 g1.toks r c
        ({ t with name := sym, bgcolor := SHOWING_BGCOLOR,
                  fgcolor := SHOWING_FGCOLOR,
                  image := (lookupA g1.symbol_images sym).getD "" }) }
    let evs := p0.2 ++ [GEv.tokenSet r c]
    if g2.showing.length = 2 then
      ({ g2 with trigger_agent := some agent_id, timer_on := true }, evs)
    else (g2, evs)

/-- PairPanickingPlugin.on_agent_enter: unconditionally set the tracked score
and the Agent's energy to START_ENERGY - 1, announce, and re-enable the
restart token when no game is in progress. -/
def on_agent_enter (g : GState) (agent_id : String) : GState × List GEv :=
  let score : Int := START_ENERGY - 1
  let g1 := { g with
    scores := insA g.scores agent_id score,
    agent_energy := updA g.agent_energy agent_id score }
  let evs1 := [GEv.privEnergySet agent_id score,
               GEv.hearAll "joined PairPanicking!"]
  if g1.game_in_progress = false then
    ({ g1 with restart_energy := 1 }, evs1 ++ [GEv.ctlSet 1])
  else (g1, evs1)

/-- PairPanickingPlugin.on_agent_leave: drop the agent's tracked score,
announce, and end the game if no active player remains. -/
def on_agent_leave (g : GState) (agent_id : String) : GState × List GEv :=
  let g1 := { g with scores := g.scores.filter (fun e => e.1 ≠ agent_id) }
  let evs1 := [GEv.hearAll "left PairPanicking."]
  if g1.game_in_progress && (g1.scores.filter (fun e => 0 < e.2)).isEmpty then
    let p := game_over g1 false
    (p.1, evs1 ++ p.2)
  else (g1, evs1)

/-- PairPanickingPlugin._setup_new_game: install the shuffled board (the
result of random.shuffle is a parameter), reset all per-round state and cancel
any pending timer. -/
def setup_new_game (g : GState) (newBoard : List (List String)) : GState :=
  { g with board := newBoard,
           state := List.replicate GRID_ROWS (List.replicate GRID_COLS CellSt.hidden),
           showing := [], trigger_agent := none, solved_count := 0,
           game_in_progress := true, timer_on := false }

/-- Attributes written to every grid token by _reset_game (hidden, enabled). -/
def resetTok : Tok :=
  { name := HIDDEN_NAME, bgcolor := HIDDEN_BGCOLOR, fgcolor := HIDDEN_FGCOLOR,
    energy := 1, image := "" }

/-- PairPanickingPlugin._reset_game: new board, all tokens hidden, all tracked
scores and agent energies back to START_ENERGY, restart token disabled. -/
def reset_game (g : GState) (newBoard : List (List String)) : GState × List GEv :=
  let g1 := setup_new_game g newBoard
  let g2 := { g1 with
    toks := g1.toks.map (fun (row : List Tok) => row.map (fun _ => resetTok)) }
  let evs2 := allCells.map (fun rc => GEv.tokenSet rc.1 rc.2)
  let newScores := g2.scores.map (fun (e : String × Int) => (e.1, START_ENERGY))
  let g3 := { g2 with scores := newScores,
                      agent_energy := writeEnergies g2.agent_energy newScores }
  let evs3 := newScores.map (fun e => GEv.energySet e.1 e.2)
  ({ g3 with restart_energy := -1 }, evs2 ++ evs3 ++ [GEv.ctlSet (-1)])

/-- PairPanickingPlugin._handle_restart: while a game is in progress, only a
private notice to the clicker; otherwise deduct the restart point from the
clicker when tracked, announce, and reset the game. -/
def handle_restart (g : GState) (agent_id : String)
    (newBoard : List (List String)) : GState × List GEv :=
  if g.game_in_progress = true then
    (g, [GEv.hearOne agent_id "A game is already in progress!"])
  else
    let p1 :=
      match lookupA g.scores agent_id with
      | some s =>
          ({ g with scores := updA g.scores agent_id (s - 1),
                    agent_energy := updA g.agent_energy agent_id (s - 1) },
           [GEv.energySet agent_id (s - 1)])
      | none => (g, ([] : List GEv))
    let evs2 := [GEv.hearAll "started a new game!"]
    let p3 := reset_game p1.1 newBoard
    (p3.1, p1.2 ++ evs2 ++ p3.2)

-- ---------------------------------------------------------------------------
-- Association-list lemmas
-- ---------------------------------------------------------------------------

theorem lookupA_mapAt {α : Type} (l : List (String × α)) (key k : String)
    (f : α → α) :
    lookupA (mapAt l key f) k =
      if k = key then (lookupA l k).map f else lookupA l k := by
  induction l with
  | nil => by_cases h : k = key <;> simp [mapAt, lookupA, h]
  | cons e rest ih =>
      simp only [mapAt, List.map_cons] at ih ⊢
      by_cases h1 : e.1 = key <;> by_cases h2 : e.1 = k
      · have hk : k = key := h2 ▸ h1
        simp [lookupA, h1, h2, hk]
      · have hk : ¬k = key := fun h => h2 (h1.trans h.symm)
        have hk2 : ¬key = k := fun h => h2 (h1.trans h)
        simp [lookupA, h1, h2, hk, hk2, ih]
      · have hk : ¬k = key := fun h => h1 (h2.trans h)
        simp [lookupA, h1, h2, hk]
      · simp [lookupA, h1, h2, ih]

theorem keysA_mapAt {α : Type} (l : List (String × α)) (key : String)
    (f : α → α) : keysA (mapAt l key f) = keysA l := by
  unfold keysA mapAt
  rw [List.map_map]
  apply List.map_congr_left
  intro e _
  by_cases h : e.1 = key <;> simp [h]

theorem lookupA_append {α : Type} (l1 l2 : List (String × α)) (k : String) :
    lookupA (l1 ++ l2) k =
      match lookupA l1 k with
      | some v => some v
      | none => lookupA l2 k := by
  induction l1 with
  | nil => simp [lookupA]
  | cons e rest ih =>
      by_cases h : e.1 = k <;> simp [lookupA, h, ih]

theorem lookupA_eq_none_iff {α : Type} (l : List (String × α)) (k : String) :
    lookupA l k = none ↔ k ∉ keysA l := by
  induction l with
  | nil => simp [lookupA, keysA]
  | cons e rest ih =>
      simp only [keysA, List.map_cons, List.mem_cons] at ih ⊢
      by_cases h : e.1 = k
      · simp [lookupA, h]
      · have h2 : ¬k = e.1 := fun hh => h hh.symm
        simp only [lookupA, if_neg h]
        rw [ih]
        simp [h2]

theorem lookupA_isSome_of_mem {α : Type} (l : List (String × α)) (k : String)
    (h : k ∈ keysA l) : (lookupA l k).isSome = true := by
  cases hv : lookupA l k with
  | none => exact absurd h ((lookupA_eq_none_iff l k).mp hv)
  | some v => rfl

theorem mem_keysA_of_lookupA {α : Type} {l : List (String × α)} {k : String}
    {v : α} (h : lookupA l k = some v) : k ∈ keysA l := by
  by_contra hmem
  rw [(lookupA_eq_none_iff l k).mpr hmem] at h
  exact Option.noConfusion h

theorem lookupA_of_mem_nodup {α : Type} {l : List (String × α)} {e : String × α}
    (hnd : (keysA l).Nodup) (hmem : e ∈ l) : lookupA l e.1 = some e.2 := by
  induction l with
  | nil => cases hmem
  | cons f rest ih =>
      simp only [keysA, List.map_cons, List.nodup_cons] at hnd
      rcases List.mem_cons.mp hmem with h | h
      · subst h; simp [lookupA]
      · have hne : f.1 ≠ e.1 := by
          intro heq2
          apply hnd.1
          rw [heq2]
          exact List.mem_map_of_mem Prod.fst h
        simp only [lookupA, if_neg hne]
        exact ih hnd.2 h

theorem lookupA_mem {α : Type} {l : List (String × α)} {k : String} {v : α}
    (h : lookupA l k = some v) : (k, v) ∈ l := by
  induction l with
  | nil => cases h
  | cons e rest ih =>
      by_cases he : e.1 = k
      · cases e with
        | mk a b =>
            simp only [lookupA] at h
            rw [if_pos he] at h
            simp only at he
            subst he
            rw [Option.some.injEq] at h
            subst h
            exact List.mem_cons_self _ _
      · simp only [lookupA, if_neg he] at h
        exact List.mem_cons_of_mem _ (ih h)

theorem lookupA_updA_self {α : Type} (l : List (String × α)) (k : String)
    (v : α) : lookupA (updA l k v) k = (lookupA l k).map (fun _ => v) := by
  simp [updA, lookupA_mapAt]

theorem lookupA_updA_ne {α : Type} (l : List (String × α)) (k k2 : String)
    (v : α) (h : k2 ≠ k) : lookupA (updA l k v) k2 = lookupA l k2 := by
  simp [updA, lookupA_mapAt, h]

theorem lookupA_insA_self {α : Type} (l : List (String × α)) (k : String)
    (v : α) : lookupA (insA l k v) k = some v := by
  unfold insA
  cases hv : lookupA l k with
  | some w =>
      rw [if_pos (by simp [hv]), lookupA_updA_self, hv]
      rfl
  | none =>
      rw [if_neg (by simp [hv]), lookupA_append, hv]
      simp [lookupA]

theorem lookupA_filter_ne {α : Type} (l : List (String × α)) (k : String) :
    lookupA (l.filter (fun e => e.1 ≠ k)) k = none := by
  induction l with
  | nil => rfl
  | cons e rest ih =>
      by_cases h : e.1 = k
      · simpa [List.filter_cons, h, lookupA] using ih
      · simpa [List.filter_cons, h, lookupA] using ih

-- ---------------------------------------------------------------------------
-- C3: place_in_matrix on a nonexistent matrix id
-- ---------------------------------------------------------------------------

/-- C3 (amended): placing into a nonexistent matrix id raises no error, and it
is a true no-op only when the objid names no object, or names an object without
the container_matrix field (Matrix, ImageObj); when the objid names an Agent,
Token or Key, the call is NOT a no-op: it removes the object from its current
matrix's reverse index and redirects the object's container_matrix
back-reference to the nonexistent matrix id, leaving the object-table keys,
the reverse-index keys, and all other reverse-index entries unchanged. -/
theorem c3_place_nonexistent_matrix (w : World) (oid mid : String)
    (hmid : lookupA w.matrix_contents mid = none) :
    (lookupA w.objects oid = none → place_in_matrix w oid mid = w)
    ∧ (∀ o, lookupA w.objects oid = some o → hasContainer o.kind = false →
        place_in_matrix w oid mid = w)
    ∧ (∀ o, lookupA w.objects oid = some o → hasContainer o.kind = true →
        lookupA (place_in_matrix w oid mid).objects oid
            = some { o with container_matrix := mid }
        ∧ keysA (place_in_matrix w oid mid).objects = keysA w.objects
        ∧ keysA (place_in_matrix w oid mid).matrix_contents
            = keysA w.matrix_contents
        ∧ (o.container_matrix ≠ "" → ∀ l,
            lookupA (place_in_matrix w oid mid).matrix_contents
                o.container_matrix = some l → oid ∉ l)
        ∧ (o.container_matrix = "" →
            (place_in_matrix w oid mid).matrix_contents = w.matrix_contents)
        ∧ (∀ k, k ≠ o.container_matrix →
            lookupA (place_in_matrix w oid mid).matrix_contents k
              = lookupA w.matrix_contents k)) := by
  have hdis : ∀ cont, lookupA (discardFrom w.matrix_contents cont oid) mid = none := by
    intro cont
    by_cases h : mid = cont
    · subst h
      simp [discardFrom, lookupA_mapAt, hmid]
    · simp [discardFrom, lookupA_mapAt, h, hmid]
  refine ⟨?_, ?_, ?_⟩
  · intro hobj
    simp [place_in_matrix, hobj, hmid]
  · intro o hobj hnc
    simp [place_in_matrix, hobj, hnc, hmid]
  · intro o hobj hc
    by_cases hcm : o.container_matrix = ""
    · have hres : place_in_matrix w oid mid =
          { w with
            objects := setObj w.objects oid ({ o with container_matrix := mid }) } := by
        simp [place_in_matrix, hobj, hc, hcm, hmid]
      rw [hres]
      refine ⟨?_, ?_, rfl, ?_, fun _ => rfl, fun k _ => rfl⟩
      · simp [setObj, lookupA_mapAt, hobj]
      · simp [setObj, keysA_mapAt]
      · intro hne
        exact absurd hcm hne
    · have hres : place_in_matrix w oid mid =
          { w with
            objects := setObj w.objects oid ({ o with container_matrix := mid }),
            matrix_contents :=
              discardFrom w.matrix_contents o.container_matrix oid } := by
        simp [place_in_matrix, hobj, hc, hcm, hmid, hdis]
      rw [hres]
      refine ⟨?_, ?_, ?_, ?_, fun h => absurd h hcm, ?_⟩
      · simp [setObj, lookupA_mapAt, hobj]
      · simp [setObj, keysA_mapAt]
      · exact keysA_mapAt w.matrix_contents o.container_matrix _
      · intro _ l hl
        rw [discardFrom, lookupA_mapAt, if_pos rfl] at hl
        cases hv : lookupA w.matrix_contents o.container_matrix with
        | none => rw [hv] at hl; cases hl
        | some l0 =>
            rw [hv] at hl
            simp only [Option.map_some', Option.some.injEq] at hl
            subst hl
            simp [List.mem_filter]
      · intro k hk
        rw [discardFrom, lookupA_mapAt, if_neg hk]

/-- Concrete world for the C3 counterexample: a matrix m1 whose reverse index
holds the token t1, which points back at m1. -/
def c3World : World :=
  { objects := [("m1", { kind := ObjKind.matrix }),
                ("t1", { kind := ObjKind.token, container_matrix := "m1" })],
    matrix_contents := [("m1", ["t1"])],
    game_plugins := [] }

/-- C3 counterexample: placing the existing token t1 into the nonexistent
matrix id m99 is not a silent no-op — it changes World state, moving t1's
back-reference to m99 and deleting t1 from m1's reverse index. -/
theorem c3_counterexample :
    lookupA c3World.matrix_contents "m99" = none
    ∧ place_in_matrix c3World "t1" "m99" ≠ c3World
    ∧ lookupA (place_in_matrix c3World "t1" "m99").objects "t1"
        = some { kind := ObjKind.token, container_matrix := "m99" }
    ∧ get_contents (place_in_matrix c3World "t1" "m99") "m1" = [] := by
  refine ⟨rfl, ?_, rfl, rfl⟩
  intro h
  have h2 := congrArg (fun w => lookupA w.objects "t1") h
  simp only at h2
  exact absurd h2 (by decide)

/-- Witness for c3_place_nonexistent_matrix at the concrete world. -/
theorem c3_witness :
    lookupA (place_in_matrix c3World "t1" "m99").objects "t1"
      = some { kind := ObjKind.token, container_matrix := "m99" } :=
  ((c3_place_nonexistent_matrix c3World "t1" "m99" rfl).2.2
    { kind := ObjKind.token, container_matrix := "m1" } rfl rfl).1

-- ---------------------------------------------------------------------------
-- C7: parse_objid
-- ---------------------------------------------------------------------------

theorem isDigit_ne (c : Char) (h : c.isDigit = true) (d : Char)
    (hd : d.isDigit = false) : ¬c = d := by
  intro e
  rw [e, hd] at h
  cases h

theorem isDigit_not_ws (c : Char) (h : c.isDigit = true) :
    c.isWhitespace = false := by
  by_contra hws
  have hws2 : c.isWhitespace = true := by
    cases hb : c.isWhitespace
    · exact absurd hb hws
    · rfl
  unfold Char.isWhitespace at hws2
  simp only [Bool.or_eq_true, decide_eq_true_eq] at hws2
  rcases hws2 with ((h1 | h1) | h1) | h1 <;> (subst h1; exact absurd h (by decide))

theorem dropWhile_eq_self_of {α : Type} (p : α → Bool) (l : List α)
    (h : ∀ a ∈ l, p a = false) : l.dropWhile p = l := by
  cases l with
  | nil => rfl
  | cons a rest => simp [List.dropWhile_cons, h a (List.mem_cons_self a rest)]

theorem stripWs_eq_self (l : List Char) (h : ∀ a ∈ l, a.isWhitespace = false) :
    stripWs l = l := by
  unfold stripWs
  rw [dropWhile_eq_self_of _ _ h]
  rw [dropWhile_eq_self_of _ _ (fun a ha => h a (List.mem_reverse.mp ha))]
  exact List.reverse_reverse l

theorem digitTail_all (l : List Char) (h : ∀ a ∈ l, a.isDigit = true) :
    digitTail l = true := by
  induction l with
  | nil => rfl
  | cons c rest ih =>
      have hc := h c (List.mem_cons_self c rest)
      have hcu : ¬c = '_' := isDigit_ne c hc '_' (by decide)
      rw [digitTail.eq_def]
      simp only [if_neg hcu]
      rw [hc, ih (fun a ha => h a (List.mem_cons_of_mem c ha))]
      rfl

theorem digitRun_all (l : List Char) (hne : l ≠ [])
    (h : ∀ a ∈ l, a.isDigit = true) : digitRun l = true := by
  cases l with
  | nil => exact absurd rfl hne
  | cons c rest =>
      rw [digitRun.eq_def]
      simp only
      rw [h c (List.mem_cons_self c rest),
          digitTail_all rest (fun a ha => h a (List.mem_cons_of_mem c ha))]
      rfl

theorem stripU_eq_self (l : List Char) (h : ∀ a ∈ l, a.isDigit = true) :
    stripU l = l := by
  unfold stripU
  rw [List.filter_eq_self]
  intro a ha
  simpa using isDigit_ne a (h a ha) '_' (by decide)

theorem pyIntChars_digits (l : List Char) (hne : l ≠ [])
    (h : ∀ a ∈ l, a.isDigit = true) :
    pyIntChars l = some ((digitsVal l : Int)) := by
  have hs : stripWs l = l :=
    stripWs_eq_self l (fun a ha => isDigit_not_ws a (h a ha))
  unfold pyIntChars
  rw [hs]
  cases l with
  | nil => exact absurd rfl hne
  | cons c rest =>
      have hc := h c (List.mem_cons_self c rest)
      have hm : ¬c = '-' := isDigit_ne c hc '-' (by decide)
      have hp : ¬c = '+' := isDigit_ne c hc '+' (by decide)
      simp only [if_neg hm, if_neg hp,
        if_pos (digitRun_all (c :: rest) (by simp) h), stripU_eq_self _ h]

/-- C7 (amended): parse_objid fails exactly when the string is shorter than
two characters, its first character is not one of m/a/t/k/i, or its suffix is
not accepted by Python `int` (optional surrounding whitespace, optional sign,
digits with single internal underscores); on every string of the documented
format <type_char><digits> it succeeds and returns the type character and the
decimal value of the digits.  Unlike the claim, it can also succeed on
suffixes that are not positive decimal integers (see the counterexample). -/
theorem c7_parse_objid_amended :
    (∀ s : String, parse_objid s = none ↔
      (s.data.length < 2
        ∨ ∃ c rest, s.data = c :: rest
            ∧ (c ∉ VALID_OBJ_TYPES ∨ pyIntChars rest = none)))
    ∧ (∀ (c : Char) (ds : List Char), c ∈ VALID_OBJ_TYPES → ds ≠ [] →
        (∀ d ∈ ds, d.isDigit = true) →
        parse_objid (String.mk (c :: ds)) = some (c, (digitsVal ds : Int))) := by
  constructor
  · intro s
    cases hs : s.data with
    | nil => simp [parse_objid, hs]
    | cons c rest =>
        cases rest with
        | nil => simp [parse_objid, hs]
        | cons d rest2 =>
            by_cases hv : c ∈ VALID_OBJ_TYPES
            · simp only [parse_objid, hs, hv, if_true, if_pos hv,
                Option.map_eq_none']
              constructor
              · intro hnone
                exact Or.inr ⟨c, d :: rest2, rfl, Or.inr hnone⟩
              · rintro (hlen | ⟨c1, r, hr, hbad | hnone⟩)
                · simp at hlen
                  omega
                · rw [List.cons.injEq] at hr
                  exact absurd hv (hr.1 ▸ hbad)
                · rw [List.cons.injEq] at hr
                  exact hr.2 ▸ hnone
            · simp only [parse_objid, hs, if_neg hv]
              constructor
              · intro _
                exact Or.inr ⟨c, d :: rest2, rfl, Or.inl hv⟩
              · intro _
                trivial
  · intro c ds hc hne hd
    cases ds with
    | nil => exact absurd rfl hne
    | cons d rest =>
        show (if c ∈ VALID_OBJ_TYPES then
            (pyIntChars (d :: rest)).map (fun n => (c, n)) else none)
          = some (c, (digitsVal (d :: rest) : Int))
        rw [if_pos hc, pyIntChars_digits (d :: rest) (by simp) hd]
        rfl

/-- C7 counterexample: parse_objid succeeds on suffixes that are not positive
decimal integers — "m0" parses to 0 and "a-7" parses to -7, both accepted by
the `int(objid[1:])` call in the source. -/
theorem c7_counterexample :
    parse_objid "m0" = some ('m', 0) ∧ ¬(0 < (0 : Int))
    ∧ parse_objid "a-7" = some ('a', -7) ∧ ¬(0 < (-7 : Int)) := by
  exact ⟨rfl, by decide, rfl, by decide⟩

/-- Witness for c7_parse_objid_amended on the concrete input "m42". -/
theorem c7_witness :
    parse_objid (String.mk ['m', '4', '2']) = some ('m', (42 : Int)) := by
  have h := c7_parse_objid_amended.2 'm' ['4', '2'] (by decide) (by decide)
    (by decide)
  exact h

-- ---------------------------------------------------------------------------
-- C6: send_matrix_state emission order
-- ---------------------------------------------------------------------------

theorem rank_of_kind_group (w : World) (mid : String) (k : ObjKind)
    (oid : String) (h : oid ∈ of_kind_in_matrix w mid k) :
    rankOf w oid = kindRank k := by
  unfold of_kind_in_matrix at h
  have h2 := (List.mem_filter.mp h).2
  rw [decide_eq_true_eq] at h2
  unfold rankOf
  rw [h2]

theorem mem_kind_group (w : World) (mid : String) (k : ObjKind) (oid : String)
    (hmem : oid ∈ get_contents w mid) (hk : kindOf w oid = some k) :
    oid ∈ of_kind_in_matrix w mid k := by
  unfold of_kind_in_matrix
  exact List.mem_filter.mpr ⟨hmem, by rw [decide_eq_true_eq]; exact hk⟩

theorem pairwise_const_rank (f : String → Nat) (l : List String) (n : Nat)
    (h : ∀ a ∈ l, f a = n) : List.Pairwise (fun a b => f a ≤ f b) l := by
  induction l with
  | nil => exact List.Pairwise.nil
  | cons a rest ih =>
      refine List.Pairwise.cons ?_
        (ih (fun b hb => h b (List.mem_cons_of_mem a hb)))
      intro b hb
      rw [h a (List.mem_cons_self a rest), h b (List.mem_cons_of_mem a hb)]

/-- C6: for an existing matrix, send_matrix_state emits the Matrix's own
definition first, and the emission ranks (Matrix 0, Image 1, Token 2, Key 3,
Agent 4) are nondecreasing along the whole message sequence, so every Image
precedes every Token, every Token every Key, every Key every Agent, and no
later group precedes an earlier one; all images, tokens, keys and agents in
the matrix — in particular every agent, including the receiving client's own —
are emitted. -/
theorem c6_send_matrix_state_order (w : World) (mid : String) (o : Obj)
    (hobj : lookupA w.objects mid = some o) (hkind : o.kind = ObjKind.matrix) :
    (∃ rest, send_matrix_state w mid = mid :: rest)
    ∧ List.Pairwise (fun a b => rankOf w a ≤ rankOf w b)
        (send_matrix_state w mid)
    ∧ (∀ oid, oid ∈ get_contents w mid →
        (kindOf w oid = some ObjKind.image ∨ kindOf w oid = some ObjKind.token
          ∨ kindOf w oid = some ObjKind.key
          ∨ kindOf w oid = some ObjKind.agent) →
        oid ∈ send_matrix_state w mid) := by
  have hsend : send_matrix_state w mid =
      mid :: (get_images_in_matrix w mid ++ get_tokens_in_matrix w mid
        ++ get_keys_in_matrix w mid ++ get_agents_in_matrix w mid) := by
    simp only [send_matrix_state, hobj]
    rw [if_pos hkind]
  have hI : ∀ a ∈ get_images_in_matrix w mid, rankOf w a = 1 :=
    fun a ha => rank_of_kind_group w mid ObjKind.image a ha
  have hT : ∀ a ∈ get_tokens_in_matrix w mid, rankOf w a = 2 :=
    fun a ha => rank_of_kind_group w mid ObjKind.token a ha
  have hK : ∀ a ∈ get_keys_in_matrix w mid, rankOf w a = 3 :=
    fun a ha => rank_of_kind_group w mid ObjKind.key a ha
  have hA : ∀ a ∈ get_agents_in_matrix w mid, rankOf w a = 4 :=
    fun a ha => rank_of_kind_group w mid ObjKind.agent a ha
  have hrmid : rankOf w mid = 0 := by
    unfold rankOf kindOf
    rw [hobj]
    simp [hkind, kindRank]
  refine ⟨⟨_, hsend⟩, ?_, ?_⟩
  · rw [hsend]
    refine List.Pairwise.cons ?_ ?_
    · intro b _
      rw [hrmid]
      exact Nat.zero_le _
    · have pI := pairwise_const_rank (rankOf w) _ 1 hI
      have pT := pairwise_const_rank (rankOf w) _ 2 hT
      have pK := pairwise_const_rank (rankOf w) _ 3 hK
      have pA := pairwise_const_rank (rankOf w) _ 4 hA
      have pIT : List.Pairwise (fun a b => rankOf w a ≤ rankOf w b)
          (get_images_in_matrix w mid ++ get_tokens_in_matrix w mid) := by
        refine List.pairwise_append.mpr ⟨pI, pT, ?_⟩
        intro a ha b hb
        rw [hI a ha, hT b hb]
        omega
      have pITK : List.Pairwise (fun a b => rankOf w a ≤ rankOf w b)
          (get_images_in_matrix w mid ++ get_tokens_in_matrix w mid
            ++ get_keys_in_matrix w mid) := by
        refine List.pairwise_append.mpr ⟨pIT, pK, ?_⟩
        intro a ha b hb
        rcases List.mem_append.mp ha with h | h
        · rw [hI a h, hK b hb]; omega
        · rw [hT a h, hK b hb]; omega
      refine List.pairwise_append.mpr ⟨pITK, pA, ?_⟩
      intro a ha b hb
      rcases List.mem_append.mp ha with h | h
      · rcases List.mem_append.mp h with h2 | h2
        · rw [hI a h2, hA b hb]; omega
        · rw [hT a h2, hA b hb]; omega
      · rw [hK a h, hA b hb]; omega
  · intro oid hmem hk
    rw [hsend]
    rcases hk with h | h | h | h
    · exact List.mem_cons_of_mem _ (by
        apply List.mem_append_left
        apply List.mem_append_left
        apply List.mem_append_left
        exact mem_kind_group w mid ObjKind.image oid hmem h)
    · exact List.mem_cons_of_mem _ (by
        apply List.mem_append_left
        apply List.mem_append_left
        apply List.mem_append_right
        exact mem_kind_group w mid ObjKind.token oid hmem h)
    · exact List.mem_cons_of_mem _ (by
        apply List.mem_append_left
        apply List.mem_append_right
        exact mem_kind_group w mid ObjKind.key oid hmem h)
    · exact List.mem_cons_of_mem _ (by
        apply List.mem_append_right
        exact mem_kind_group w mid ObjKind.agent oid hmem h)

/-- Concrete world for the C6 witness: matrix m1 holding one image, one token,
one key and two agents (one of them the receiving client's own). -/
def c6World : World :=
  { objects := [("m1", { kind := ObjKind.matrix }),
                ("i1", { kind := ObjKind.image }),
                ("t1", { kind := ObjKind.token, container_matrix := "m1" }),
                ("k1", { kind := ObjKind.key, container_matrix := "m1" }),
                ("a1", { kind := ObjKind.agent, container_matrix := "m1" }),
                ("a2", { kind := ObjKind.agent, container_matrix := "m1" })],
    matrix_contents := [("m1", ["a2", "i1", "t1", "k1", "a1"])],
    game_plugins := [] }

/-- Witness for c6_send_matrix_state_order at the concrete world. -/
theorem c6_witness :
    List.Pairwise (fun a b => rankOf c6World a ≤ rankOf c6World b)
      (send_matrix_state c6World "m1") :=
  (c6_send_matrix_state_order c6World "m1" { kind := ObjKind.matrix }
    rfl rfl).2.1

-- ---------------------------------------------------------------------------
-- C8: _remove_agent cleanup ordering
-- ---------------------------------------------------------------------------

/-- C8 (amended): on disconnect or logout cleanup of a logged-in agent that is
in a matrix with a registered game plugin, _remove_agent performs, in this
order: (1) the matrix's GamePlugin on_agent_leave hook, (2) removal of the
Agent from the matrix's containment, (3) an exit attribute-delta setting x to
-1 sent to each remaining occupant of the matrix that has a session, (4) the
best-effort farewell reply, (5) discarding the Session.  The Agent object
itself remains in World's object table, with its back-reference cleared.  The
plugin hook thus runs BEFORE the containment removal, not after it as the
claim states. -/
theorem c8_remove_agent_order (s : Srv) (aid : String) (o : Obj)
    (hobj : lookupA s.world.objects aid = some o)
    (hkind : o.kind = ObjKind.agent)
    (hmid : o.container_matrix ≠ "")
    (hplug : o.container_matrix ∈ s.world.game_plugins) :
    (remove_agent s aid).2
      = SrvAct.pluginLeave o.container_matrix aid
        :: SrvAct.removedFromMatrix aid
        :: (((get_agents_in_matrix (remove_from_matrix s.world aid).1
                o.container_matrix).filter (fun a => a ∈ s.sessions)).map
              (fun p => SrvAct.exitSet p aid (-1))
            ++ [SrvAct.farewell aid, SrvAct.dropSession aid])
    ∧ lookupA (remove_agent s aid).1.world.objects aid
        = some { o with container_matrix := "" }
    ∧ aid ∉ (remove_agent s aid).1.sessions := by
  have hhc : hasContainer o.kind = true := by rw [hkind]; rfl
  have hres : remove_agent s aid =
      ({ world := (remove_from_matrix s.world aid).1,
         sessions := s.sessions.filter (fun a => a ≠ aid) },
       [SrvAct.pluginLeave o.container_matrix aid]
        ++ (SrvAct.removedFromMatrix aid
            :: ((get_agents_in_matrix (remove_from_matrix s.world aid).1
                  o.container_matrix).filter (fun a => a ∈ s.sessions)).map
                (fun p => SrvAct.exitSet p aid (-1)))
        ++ [SrvAct.farewell aid, SrvAct.dropSession aid]) := by
    simp [remove_agent, hobj, hkind, hmid, hplug]
  refine ⟨?_, ?_, ?_⟩
  · rw [hres]
    simp
  · rw [hres]
    show lookupA (remove_from_matrix s.world aid).1.objects aid
      = some { o with container_matrix := "" }
    simp [remove_from_matrix, hobj, hhc, hmid, setObj, lookupA_mapAt]
  · rw [hres]
    intro hmem
    have := (List.mem_filter.mp hmem).2
    simp at this

/-- Concrete server for the C8 counterexample: agents a1 and a2 in matrix m1,
which has a plugin; both have sessions. -/
def c8Srv : Srv :=
  { world :=
      { objects := [("m1", { kind := ObjKind.matrix }),
                    ("a1", { kind := ObjKind.agent, container_matrix := "m1" }),
                    ("a2", { kind := ObjKind.agent, container_matrix := "m1" })],
        matrix_contents := [("m1", ["a1", "a2"])],
        game_plugins := ["m1"] },
    sessions := ["a1", "a2"] }

/-- C8 counterexample: the concrete cleanup trace of removing a1 runs the
plugin's on_agent_leave hook FIRST and only then removes the agent from the
matrix, refuting the claimed order (removal before the hook); the remaining
steps (exit delta with x = -1 to the remaining occupant, farewell, session
discard) follow, and the Agent object stays in the object table. -/
theorem c8_counterexample :
    (remove_agent c8Srv "a1").2
      = [SrvAct.pluginLeave "m1" "a1",
         SrvAct.removedFromMatrix "a1",
         SrvAct.exitSet "a2" "a1" (-1),
         SrvAct.farewell "a1",
         SrvAct.dropSession "a1"]
    ∧ lookupA (remove_agent c8Srv "a1").1.world.objects "a1"
        = some { kind := ObjKind.agent, container_matrix := "" } := by
  exact ⟨rfl, rfl⟩

/-- Witness for c8_remove_agent_order at the concrete server. -/
theorem c8_witness :
    "a1" ∉ (remove_agent c8Srv "a1").1.sessions :=
  (c8_remove_agent_order c8Srv "a1"
    { kind := ObjKind.agent, container_matrix := "m1" }
    rfl rfl (by decide) (by decide)).2.2

-- ---------------------------------------------------------------------------
-- Game-state invariant lemmas
-- ---------------------------------------------------------------------------

theorem reveal_step_inv (p : GState × List GEv) (rc : Nat × Nat) :
    (reveal_step p rc).1.showing = p.1.showing
    ∧ (reveal_step p rc).1.timer_on = p.1.timer_on
    ∧ (reveal_step p rc).1.scores = p.1.scores
    ∧ (reveal_step p rc).1.agent_energy = p.1.agent_energy
    ∧ (reveal_step p rc).1.game_in_progress = p.1.game_in_progress
    ∧ (reveal_step p rc).1.trigger_agent = p.1.trigger_agent
    ∧ (reveal_step p rc).2.countP isResolveRun = p.2.countP isResolveRun := by
  unfold reveal_step
  split
  · refine ⟨rfl, rfl, rfl, rfl, rfl, rfl, ?_⟩
    rw [List.countP_append]
    simp [isResolveRun]
  · exact ⟨rfl, rfl, rfl, rfl, rfl, rfl, rfl⟩

theorem reveal_fold_inv (cells : List (Nat × Nat)) (p : GState × List GEv) :
    (cells.foldl reveal_step p).1.showing = p.1.showing
    ∧ (cells.foldl reveal_step p).1.timer_on = p.1.timer_on
    ∧ (cells.foldl reveal_step p).1.scores = p.1.scores
    ∧ (cells.foldl reveal_step p).1.agent_energy = p.1.agent_energy
    ∧ (cells.foldl reveal_step p).1.game_in_progress = p.1.game_in_progress
    ∧ (cells.foldl reveal_step p).1.trigger_agent = p.1.trigger_agent
    ∧ (cells.foldl reveal_step p).2.countP isResolveRun
        = p.2.countP isResolveRun := by
  induction cells generalizing p with
  | nil => exact ⟨rfl, rfl, rfl, rfl, rfl, rfl, rfl⟩
  | cons rc rest ih =>
      rw [List.foldl_cons]
      have h1 := reveal_step_inv p rc
      have h2 := ih (reveal_step p rc)
      exact ⟨h2.1.trans h1.1, h2.2.1.trans h1.2.1, h2.2.2.1.trans h1.2.2.1,
        h2.2.2.2.1.trans h1.2.2.2.1, h2.2.2.2.2.1.trans h1.2.2.2.2.1,
        h2.2.2.2.2.2.1.trans h1.2.2.2.2.2.1,
        h2.2.2.2.2.2.2.trans h1.2.2.2.2.2.2⟩

theorem reveal_all_inv (g : GState) :
    (reveal_all g).1.showing = g.showing
    ∧ (reveal_all g).1.timer_on = g.timer_on
    ∧ (reveal_all g).1.scores = g.scores
    ∧ (reveal_all g).1.agent_energy = g.agent_energy
    ∧ (reveal_all g).1.game_in_progress = g.game_in_progress
    ∧ (reveal_all g).1.trigger_agent = g.trigger_agent
    ∧ (reveal_all g).2.countP isResolveRun = 0 := by
  have h := reveal_fold_inv allCells (g, [])
  simp only at h
  unfold reveal_all
  exact h

theorem game_over_inv (g : GState) (b : Bool) :
    (game_over g b).1.showing = g.showing
    ∧ (game_over g b).1.timer_on = g.timer_on
    ∧ (game_over g b).1.scores = g.scores
    ∧ (game_over g b).1.agent_energy = g.agent_energy
    ∧ (game_over g b).1.trigger_agent = g.trigger_agent
    ∧ (game_over g b).2.countP isResolveRun = 0 := by
  have h := reveal_all_inv ({ g with game_in_progress := false })
  cases b
  · simp only [game_over]
    refine ⟨?_, ?_, ?_, ?_, ?_, ?_⟩
    · exact h.1
    · exact h.2.1
    · exact h.2.2.1
    · exact h.2.2.2.1
    · exact h.2.2.2.2.2.1
    · simp only [List.countP_append, List.countP_cons]
      rw [h.2.2.2.2.2.2]
      simp [isResolveRun]
  · simp [game_over, isResolveRun]

theorem handle_match_spec (g : GState) (r1 c1 r2 c2 : Nat) :
    (handle_match g r1 c1 r2 c2).1.scores
        = g.scores.map (matchScore g.trigger_agent)
    ∧ (handle_match g r1 c1 r2 c2).1.showing = g.showing
    ∧ (handle_match g r1 c1 r2 c2).1.timer_on = g.timer_on
    ∧ (handle_match g r1 c1 r2 c2).2.countP isResolveRun = 0 := by
  simp only [handle_match]
  split
  · refine ⟨?_, ?_, ?_, ?_⟩
    · rw [(game_over_inv _ true).2.2.1]
    · rw [(game_over_inv _ true).1]
    · rw [(game_over_inv _ true).2.1]
    · simp only [List.countP_append, (game_over_inv _ true).2.2.2.2.2,
        List.countP_map, List.countP_cons]
      simp [Function.comp_def, isResolveRun]
  · refine ⟨rfl, rfl, rfl, ?_⟩
    simp only [List.countP_append, List.countP_map, List.countP_cons]
    simp [Function.comp_def, isResolveRun]

theorem handle_mismatch_spec (g : GState) (r1 c1 r2 c2 : Nat) :
    (handle_mismatch g r1 c1 r2 c2).1.scores
        = g.scores.map (mismatchScore g.trigger_agent)
    ∧ (handle_mismatch g r1 c1 r2 c2).1.showing = g.showing
    ∧ (handle_mismatch g r1 c1 r2 c2).1.timer_on = g.timer_on
    ∧ (handle_mismatch g r1 c1 r2 c2).2.countP isResolveRun = 0 := by
  simp only [handle_mismatch]
  split
  · refine ⟨?_, ?_, ?_, ?_⟩
    · rw [(game_over_inv _ false).2.2.1]
    · rw [(game_over_inv _ false).1]
    · rw [(game_over_inv _ false).2.1]
    · simp only [List.countP_append, (game_over_inv _ false).2.2.2.2.2,
        List.countP_map, List.countP_cons]
      simp [Function.comp_def, isResolveRun]
  · refine ⟨rfl, rfl, rfl, ?_⟩
    simp only [List.countP_append, List.countP_map, List.countP_cons]
    simp [Function.comp_def, isResolveRun]

theorem resolve_spec (g : GState) (p1 p2 : Nat × Nat) (rest : List (Nat × Nat))
    (hs : g.showing = p1 :: p2 :: rest) :
    (resolve g).1.showing = [] ∧ (resolve g).1.timer_on = false
    ∧ (resolve g).2.countP isResolveRun = 1 := by
  simp only [resolve, hs]
  split
  · refine ⟨?_, ?_, ?_⟩
    · rw [(handle_match_spec _ _ _ _ _).2.1]
    · rw [(handle_match_spec _ _ _ _ _).2.2.1]
    · rw [List.countP_cons, (handle_match_spec _ _ _ _ _).2.2.2]
      rfl
  · refine ⟨?_, ?_, ?_⟩
    · rw [(handle_mismatch_spec _ _ _ _ _).2.1]
    · rw [(handle_mismatch_spec _ _ _ _ _).2.2.1]
    · rw [List.countP_cons, (handle_mismatch_spec _ _ _ _ _).2.2.2]
      rfl

theorem resolve_noop_nil (g : GState) (hs : g.showing = []) :
    resolve g = ({ g with timer_on := false }, []) := by
  simp only [resolve, hs]

theorem timer_fire_cancelled (g : GState) (h : g.timer_on = false) :
    timer_fire g = (g, []) := by
  simp [timer_fire, h]

theorem keysA_map_fst {α : Type} (l : List (String × α))
    (f : String × α → String × α) (h : ∀ e, (f e).1 = e.1) :
    keysA (l.map f) = keysA l := by
  unfold keysA
  rw [List.map_map]
  exact List.map_congr_left (fun e _ => h e)

theorem mismatchScore_fst (t : Option String) (e : String × Int) :
    (mismatchScore t e).1 = e.1 := by
  unfold mismatchScore
  split <;> rfl

-- ---------------------------------------------------------------------------
-- C1: match/mismatch score deltas
-- ---------------------------------------------------------------------------

/-- C1: when a showing pair resolves as a match, every tracked agent's score
gains exactly 2 and the trigger agent an additional 4; when it resolves as a
mismatch, every agent with a currently positive score loses exactly 1 and the
trigger an additional 1 (net 2), while agents at 0 or below lose nothing; the
key set of the score table is unchanged by both handlers, so no other agent's
score changes. -/
theorem c1_match_mismatch_score_deltas (g : GState) (r1 c1 r2 c2 : Nat)
    (a : String) (s : Int) :
    (keysA (handle_match g r1 c1 r2 c2).1.scores = keysA g.scores)
    ∧ ((a, s) ∈ g.scores →
        (a, s + 2 + (if g.trigger_agent = some a then 4 else 0))
          ∈ (handle_match g r1 c1 r2 c2).1.scores)
    ∧ (keysA (handle_mismatch g r1 c1 r2 c2).1.scores = keysA g.scores)
    ∧ ((a, s) ∈ g.scores → 0 < s →
        (a, s - (if g.trigger_agent = some a then 2 else 1))
          ∈ (handle_mismatch g r1 c1 r2 c2).1.scores)
    ∧ ((a, s) ∈ g.scores → s ≤ 0 →
        (a, s) ∈ (handle_mismatch g r1 c1 r2 c2).1.scores) := by
  have hm := (handle_match_spec g r1 c1 r2 c2).1
  have hmm := (handle_mismatch_spec g r1 c1 r2 c2).1
  refine ⟨?_, ?_, ?_, ?_, ?_⟩
  · rw [hm]
    exact keysA_map_fst _ _ (fun e => rfl)
  · intro hmem
    rw [hm]
    exact List.mem_map_of_mem (matchScore g.trigger_agent) hmem
  · rw [hmm]
    exact keysA_map_fst _ _ (fun e => mismatchScore_fst _ e)
  · intro hmem hpos
    rw [hmm]
    have h2 := List.mem_map_of_mem (mismatchScore g.trigger_agent) hmem
    rw [show mismatchScore g.trigger_agent (a, s)
        = (a, s - (if g.trigger_agent = some a then 2 else 1)) from by
      simp [mismatchScore, not_le.mpr hpos]] at h2
    exact h2
  · intro hmem hle
    rw [hmm]
    have h2 := List.mem_map_of_mem (mismatchScore g.trigger_agent) hmem
    rw [show mismatchScore g.trigger_agent (a, s) = (a, s) from by
      simp [mismatchScore, hle]] at h2
    exact h2

/-- Concrete game state shared by the game-plugin witnesses: a 2x2 fragment,
two squares showing at (0,0) and (1,0) carrying the same symbol, trigger a1,
timer pending, three tracked agents of which a2 is at score 0. -/
def gDemo : GState :=
  { board := [["a", "b"], ["a", "c"]],
    state := [[CellSt.showing, CellSt.hidden], [CellSt.showing, CellSt.hidden]],
    toks := [[defaultTok, defaultTok], [defaultTok, defaultTok]],
    restart_energy := -1,
    showing := [(0, 0), (1, 0)],
    trigger_agent := some "a1",
    timer_on := true,
    scores := [("a1", 5), ("a2", 0), ("a3", 1)],
    agent_energy := [("a1", 5), ("a2", 0), ("a3", 1)],
    game_in_progress := true,
    solved_count := 4,
    symbol_images := [] }

/-- Witness for c1_match_mismatch_score_deltas: the zero-score agent a2 gains
exactly 2 on a match of the demo board. -/
theorem c1_witness :
    ("a2", (0 : Int) + 2 + (if gDemo.trigger_agent = some "a2" then 4 else 0))
      ∈ (handle_match gDemo 0 0 1 0).1.scores :=
  (c1_match_mismatch_score_deltas gDemo 0 0 1 0 "a2" 0).2.1 (by decide)

-- ---------------------------------------------------------------------------
-- C9: restart while a game is in progress
-- ---------------------------------------------------------------------------

/-- C9: clicking the restart control while a game is in progress sends only a
private notice to the clicking agent and returns the state unchanged: the
board, the per-square states and tokens, every tracked score, every agent
energy, the restart token's energy and the game-in-progress flag are all
exactly as before, and no broadcast of any kind is emitted. -/
theorem c9_restart_in_progress (g : GState) (agent_id : String)
    (newBoard : List (List String)) (h : g.game_in_progress = true) :
    handle_restart g agent_id newBoard
      = (g, [GEv.hearOne agent_id "A game is already in progress!"]) := by
  simp [handle_restart, h]

/-- Witness for c9_restart_in_progress at the demo state. -/
theorem c9_witness :
    handle_restart gDemo "a1" []
      = (gDemo, [GEv.hearOne "a1" "A game is already in progress!"]) :=
  c9_restart_in_progress gDemo "a1" [] rfl

-- ---------------------------------------------------------------------------
-- C10: leave/re-enter resets the score
-- ---------------------------------------------------------------------------

theorem enter_scores (g : GState) (aid : String) :
    (on_agent_enter g aid).1.scores = insA g.scores aid (START_ENERGY - 1) := by
  simp only [on_agent_enter]
  split <;> rfl

theorem enter_energy (g : GState) (aid : String) :
    (on_agent_enter g aid).1.agent_energy
      = updA g.agent_energy aid (START_ENERGY - 1) := by
  simp only [on_agent_enter]
  split <;> rfl

theorem enter_gip (g : GState) (aid : String) :
    (on_agent_enter g aid).1.game_in_progress = g.game_in_progress := by
  simp only [on_agent_enter]
  split <;> rfl

theorem leave_scores (g : GState) (aid : String) :
    (on_agent_leave g aid).1.scores
      = g.scores.filter (fun e => e.1 ≠ aid) := by
  simp only [on_agent_leave]
  split
  · rw [(game_over_inv _ false).2.2.1]
  · rfl

theorem isEmpty_false_of_ne_nil {α : Type} (l : List α) (h : l ≠ []) :
    l.isEmpty = false := by
  cases l with
  | nil => exact absurd rfl h
  | cons a rest => rfl

theorem leave_gip_of_active (g : GState) (aid : String)
    (h : ((g.scores.filter (fun e => e.1 ≠ aid)).filter
        (fun e => 0 < e.2)) ≠ []) :
    (on_agent_leave g aid).1.game_in_progress = g.game_in_progress := by
  have hcond := isEmpty_false_of_ne_nil _ h
  simp only [on_agent_leave]
  rw [if_neg]
  · intro hc
    rw [Bool.and_eq_true] at hc
    rw [hcond] at hc
    exact Bool.false_ne_true hc.2

/-- C10: on_agent_enter sets the entering agent's tracked score — and, when the
agent object is known to the world, its energy — to START_ENERGY - 1 = 9
regardless of any previous value; on_agent_leave drops the agent's score
tracking entirely; hence, while a game stays in progress because another
active player remains, an agent (even one at score 0 or below) can leave and
re-enter and become a positive-score participant in the same game again. -/
theorem c10_reenter_reset (g : GState) (aid : String) :
    lookupA (on_agent_enter g aid).1.scores aid = some (START_ENERGY - 1)
    ∧ ((lookupA g.agent_energy aid).isSome = true →
        lookupA (on_agent_enter g aid).1.agent_energy aid
          = some (START_ENERGY - 1))
    ∧ (on_agent_enter g aid).1.game_in_progress = g.game_in_progress
    ∧ lookupA (on_agent_leave g aid).1.scores aid = none
    ∧ (g.game_in_progress = true →
        ((g.scores.filter (fun e => e.1 ≠ aid)).filter
            (fun e => 0 < e.2)) ≠ [] →
        lookupA (on_agent_enter (on_agent_leave g aid).1 aid).1.scores aid
            = some (START_ENERGY - 1)
          ∧ 0 < START_ENERGY - 1
          ∧ (on_agent_enter (on_agent_leave g aid).1 aid).1.game_in_progress
              = true) := by
  refine ⟨?_, ?_, enter_gip g aid, ?_, ?_⟩
  · rw [enter_scores]
    exact lookupA_insA_self _ _ _
  · intro hsome
    rw [enter_energy, lookupA_updA_self]
    cases hv : lookupA g.agent_energy aid with
    | none => rw [hv] at hsome; cases hsome
    | some w => rfl
  · rw [leave_scores]
    exact lookupA_filter_ne _ _
  · intro hgip hact
    refine ⟨?_, by norm_num [START_ENERGY], ?_⟩
    · rw [enter_scores]
      exact lookupA_insA_self _ _ _
    · rw [enter_gip, leave_gip_of_active g aid hact, hgip]

/-- Witness for c10_reenter_reset: a2, eliminated at score 0, leaves and
re-enters the demo game and is tracked again at score 9. -/
theorem c10_witness :
    lookupA (on_agent_enter (on_agent_leave gDemo "a2").1 "a2").1.scores "a2"
      = some (START_ENERGY - 1) :=
  ((c10_reenter_reset gDemo "a2").2.2.2.2 rfl (by decide)).1

-- ---------------------------------------------------------------------------
-- C5: resolution postconditions
-- ---------------------------------------------------------------------------

theorem gstate_timer_eta (x : GState) (h : x.timer_on = false) :
    ({ x with timer_on := false } : GState) = x := by
  cases x
  simp_all

/-- C5: after any resolution of a showing pair — the body of _resolve past its
guard, reached from timer expiry or from a pre-empting third click — the
showing list is empty and no timer is pending; a timer that is no longer
pending (cancelled) never executes the resolution body; and an immediate
second _resolve call is a no-op, so at most one resolution executes per
revealed pair. -/
theorem c5_resolution_postconditions (g : GState) (p1 p2 : Nat × Nat)
    (hs : g.showing = [p1, p2]) :
    (resolve g).1.showing = [] ∧ (resolve g).1.timer_on = false
    ∧ (resolve g).2.countP isResolveRun = 1
    ∧ timer_fire (resolve g).1 = ((resolve g).1, [])
    ∧ resolve (resolve g).1 = ((resolve g).1, []) := by
  have h := resolve_spec g p1 p2 [] hs
  refine ⟨h.1, h.2.1, h.2.2, ?_, ?_⟩
  · exact timer_fire_cancelled _ h.2.1
  · rw [resolve_noop_nil (resolve g).1 h.1, gstate_timer_eta _ h.2.1]

/-- Witness for c5_resolution_postconditions at the demo state. -/
theorem c5_witness :
    (resolve gDemo).2.countP isResolveRun = 1 :=
  (c5_resolution_postconditions gDemo (0, 0) (1, 0) rfl).2.2.1

-- ---------------------------------------------------------------------------
-- C4: third click forces one resolution before the reveal
-- ---------------------------------------------------------------------------

/-- C4: a click on a hidden grid square by an active agent while two squares
are showing executes exactly one resolution of the pending pair and emits the
reveal broadcast of the new square as the very last event, strictly after the
resolution; afterwards only the newly clicked square is in the showing list
and no timer is pending — so the pending pair is never resolved twice and the
new reveal never happens while two squares are still showing. -/
theorem c4_thirdclick_resolves_then_reveals (g : GState) (aid : String)
    (r c : Nat) (p1 p2 : Nat × Nat)
    (hgip : g.game_in_progress = true)
    (hscore : 0 < (lookupA g.scores aid).getD 0)
    (hcell : get2 g.state r c CellSt.solved = CellSt.hidden)
    (hs : g.showing = [p1, p2]) :
    (on_click_grid g aid r c).2.countP isResolveRun = 1
    ∧ (∃ l1, (on_click_grid g aid r c).2 = l1 ++ [GEv.tokenSet r c]
        ∧ l1.countP isResolveRun = 1)
    ∧ (on_click_grid g aid r c).1.showing = [(r, c)]
    ∧ (on_click_grid g aid r c).1.timer_on = false := by
  have h := resolve_spec g p1 p2 [] hs
  have hns : ¬((lookupA g.scores aid).getD 0 ≤ 0) := not_le.mpr hscore
  simp only [on_click_grid, hgip, hns, hcell, hs, h.1, h.2.1]
  simp only [List.length_cons, List.length_nil, List.nil_append,
    List.length_singleton, if_neg, ite_false, ite_true]
  refine ⟨?_, ?_, ?_, ?_⟩ <;> simp [h.2.2, isResolveRun, h.1, h.2.1]

/-- Witness for c4_thirdclick_resolves_then_reveals: the third click at the
hidden square (0,1) of the demo state leaves exactly that square showing. -/
theorem c4_witness :
    (on_click_grid gDemo "a1" 0 1).1.showing = [(0, 1)] :=
  (c4_thirdclick_resolves_then_reveals gDemo "a1" 0 1 (0, 0) (1, 0)
    rfl (by decide) rfl rfl).2.2.1

-- ---------------------------------------------------------------------------
-- C2: containment invariant over World operation sequences
-- ---------------------------------------------------------------------------

/-- Containment invariant: object and reverse-index keys are duplicate-free,
the empty string is not a matrix id, every Agent/Token/Key with a nonempty
back-reference is a member of exactly that matrix's reverse-index entry and of
no other, one with an empty back-reference of none, and reverse-index entries
only hold registered objids. -/
def InvW (w : World) : Prop :=
  (keysA w.objects).Nodup
  ∧ (keysA w.matrix_contents).Nodup
  ∧ lookupA w.matrix_contents "" = none
  ∧ (∀ oid o, lookupA w.objects oid = some o → hasContainer o.kind = true →
      ((o.container_matrix ≠ "" →
          ∃ l, lookupA w.matrix_contents o.container_matrix = some l ∧ oid ∈ l)
       ∧ (∀ mid l, lookupA w.matrix_contents mid = some l → oid ∈ l →
           mid = o.container_matrix)))
  ∧ (∀ mid l, lookupA w.matrix_contents mid = some l → ∀ oid ∈ l,
      (lookupA w.objects oid).isSome = true)

theorem invW_empty : InvW emptyW := by
  refine ⟨List.nodup_nil, List.nodup_nil, rfl, ?_, ?_⟩
  · intro oid o h
    cases h
  · intro mid l h
    cases h

theorem isSome_lookupA_mapAt {α : Type} (c : List (String × α))
    (k mid : String) (f : α → α) :
    (lookupA (mapAt c k f) mid).isSome = (lookupA c mid).isSome := by
  rw [lookupA_mapAt]
  split
  · cases lookupA c mid <;> rfl
  · rfl

theorem keysA_append {α : Type} (l1 l2 : List (String × α)) :
    keysA (l1 ++ l2) = keysA l1 ++ keysA l2 := by
  unfold keysA
  exact List.map_append _ _ _

theorem mem_insert_fn (l : List String) (oid x : String) :
    (x ∈ (if oid ∈ l then l else l ++ [oid])) ↔ (x ∈ l ∨ x = oid) := by
  by_cases hm : oid ∈ l
  · rw [if_pos hm]
    constructor
    · exact Or.inl
    · rintro (h | rfl)
      · exact h
      · exact hm
  · rw [if_neg hm]
    simp [List.mem_append]

theorem place_valid_eq_container (w : World) (oid mid : String) (o : Obj)
    (hobj : lookupA w.objects oid = some o)
    (hhc : hasContainer o.kind = true)
    (hmid : (lookupA w.matrix_contents mid).isSome = true) :
    place_in_matrix w oid mid =
      { w with
        objects := setObj w.objects oid ({ o with container_matrix := mid }),
        matrix_contents :=
          addTo (if o.container_matrix = "" then w.matrix_contents
                 else discardFrom w.matrix_contents o.container_matrix oid)
            mid oid } := by
  by_cases hcm : o.container_matrix = ""
  · simp [place_in_matrix, hobj, hhc, hcm, hmid]
  · have hmid2 : (lookupA (discardFrom w.matrix_contents o.container_matrix oid)
        mid).isSome = true := by
      rw [discardFrom, isSome_lookupA_mapAt]
      exact hmid
    simp [place_in_matrix, hobj, hhc, hcm, hmid, hmid2]

theorem place_valid_eq_nocontainer (w : World) (oid mid : String) (o : Obj)
    (hobj : lookupA w.objects oid = some o)
    (hhc : hasContainer o.kind = false)
    (hmid : (lookupA w.matrix_contents mid).isSome = true) :
    place_in_matrix w oid mid =
      { w with matrix_contents := addTo w.matrix_contents mid oid } := by
  simp [place_in_matrix, hobj, hhc, hmid]


theorem invW_place (w : World) (oid mid : String) (hInv : InvW w)
    (hoid : (lookupA w.objects oid).isSome = true)
    (hmid : (lookupA w.matrix_contents mid).isSome = true) :
    InvW (place_in_matrix w oid mid) := by
  obtain ⟨hnd1, hnd2, hemp, hcont, hexist⟩ := hInv
  have hmidne : ¬mid = "" := by
    intro h
    rw [h, hemp] at hmid
    cases hmid
  obtain ⟨o, hobj⟩ : ∃ o, lookupA w.objects oid = some o := by
    cases hv : lookupA w.objects oid with
    | none => rw [hv] at hoid; cases hoid
    | some o => exact ⟨o, rfl⟩
  obtain ⟨lm, hlm⟩ : ∃ lm, lookupA w.matrix_contents mid = some lm := by
    cases hv : lookupA w.matrix_contents mid with
    | none => rw [hv] at hmid; cases hmid
    | some l => exact ⟨l, rfl⟩
  by_cases hhc : hasContainer o.kind = true
  · rw [place_valid_eq_container w oid mid o hobj hhc hmid]
    set base := (if o.container_matrix = "" then w.matrix_contents
        else discardFrom w.matrix_contents o.container_matrix oid) with hbase
    have hbase_lookup : ∀ k, lookupA base k
        = if ¬o.container_matrix = "" ∧ k = o.container_matrix
          then (lookupA w.matrix_contents k).map
            (fun l => l.filter (fun x => x ≠ oid))
          else lookupA w.matrix_contents k := by
      intro k
      rw [hbase]
      by_cases hcm : o.container_matrix = ""
      · rw [if_pos hcm, if_neg (by rintro ⟨h1, _⟩; exact h1 hcm)]
      · rw [if_neg hcm, discardFrom, lookupA_mapAt]
        by_cases hk : k = o.container_matrix
        · rw [if_pos hk, if_pos ⟨hcm, hk⟩]
        · rw [if_neg hk, if_neg (by rintro ⟨_, h2⟩; exact hk h2)]
    have hfin_lookup : ∀ k, lookupA (addTo base mid oid) k
        = if k = mid
          then (lookupA base k).map (fun l => if oid ∈ l then l else l ++ [oid])
          else lookupA base k := by
      intro k
      rw [addTo, lookupA_mapAt]
    have hback : ∀ k l2 x, lookupA (addTo base mid oid) k = some l2 → x ∈ l2 →
        x = oid ∨ ∃ l0, lookupA w.matrix_contents k = some l0 ∧ x ∈ l0 := by
      intro k l2 x hlk hx
      rw [hfin_lookup k] at hlk
      by_cases hk : k = mid
      · rw [if_pos hk, hbase_lookup k] at hlk
        by_cases hc2 : ¬o.container_matrix = "" ∧ k = o.container_matrix
        · rw [if_pos hc2] at hlk
          cases hv2 : lookupA w.matrix_contents k with
          | none => rw [hv2] at hlk; cases hlk
          | some l0 =>
              rw [hv2] at hlk
              simp only [Option.map_some', Option.some.injEq] at hlk
              subst hlk
              rcases (mem_insert_fn _ oid x).mp hx with hx1 | hx1
              · exact Or.inr ⟨l0, rfl, (List.mem_filter.mp hx1).1⟩
              · exact Or.inl hx1
        · rw [if_neg hc2] at hlk
          cases hv2 : lookupA w.matrix_contents k with
          | none => rw [hv2] at hlk; cases hlk
          | some l0 =>
              rw [hv2] at hlk
              simp only [Option.map_some', Option.some.injEq] at hlk
              subst hlk
              rcases (mem_insert_fn _ oid x).mp hx with hx1 | hx1
              · exact Or.inr ⟨l0, rfl, hx1⟩
              · exact Or.inl hx1
      · rw [if_neg hk, hbase_lookup k] at hlk
        by_cases hc2 : ¬o.container_matrix = "" ∧ k = o.container_matrix
        · rw [if_pos hc2] at hlk
          cases hv2 : lookupA w.matrix_contents k with
          | none => rw [hv2] at hlk; cases hlk
          | some l0 =>
              rw [hv2] at hlk
              simp only [Option.map_some', Option.some.injEq] at hlk
              subst hlk
              exact Or.inr ⟨l0, rfl, (List.mem_filter.mp hx).1⟩
        · rw [if_neg hc2] at hlk
          exact Or.inr ⟨l2, hlk, hx⟩
    have hfwd : ∀ k l0 x, lookupA w.matrix_contents k = some l0 → x ∈ l0 →
        ¬x = oid →
        ∃ l2, lookupA (addTo base mid oid) k = some l2 ∧ x ∈ l2 := by
      intro k l0 x hlk hx hxne
      have hxbase : ∃ l1, lookupA base k = some l1 ∧ x ∈ l1 := by
        rw [hbase_lookup k]
        by_cases hc2 : ¬o.container_matrix = "" ∧ k = o.container_matrix
        · rw [if_pos hc2, hlk]
          exact ⟨_, rfl, List.mem_filter.mpr ⟨hx, by simpa using hxne⟩⟩
        · rw [if_neg hc2, hlk]
          exact ⟨l0, rfl, hx⟩
      obtain ⟨l1, hl1, hxl1⟩ := hxbase
      rw [hfin_lookup k]
      by_cases hk : k = mid
      · rw [if_pos hk, hl1]
        exact ⟨_, rfl, (mem_insert_fn l1 oid x).mpr (Or.inl hxl1)⟩
      · rw [if_neg hk, hl1]
        exact ⟨l1, rfl, hxl1⟩
    have hoid_mem : ∃ l2, lookupA (addTo base mid oid) mid = some l2
        ∧ oid ∈ l2 := by
      obtain ⟨l1, hl1⟩ : ∃ l1, lookupA base mid = some l1 := by
        rw [hbase_lookup mid]
        by_cases hc2 : ¬o.container_matrix = "" ∧ mid = o.container_matrix
        · rw [if_pos hc2, hlm]
          exact ⟨_, rfl⟩
        · rw [if_neg hc2, hlm]
          exact ⟨lm, rfl⟩
      rw [hfin_lookup mid, if_pos rfl, hl1]
      exact ⟨_, rfl, (mem_insert_fn l1 oid oid).mpr (Or.inr rfl)⟩
    have hoid_only : ∀ k l2, ¬k = mid →
        lookupA (addTo base mid oid) k = some l2 → oid ∉ l2 := by
      intro k l2 hk hlk hmem
      rw [hfin_lookup k, if_neg hk, hbase_lookup k] at hlk
      by_cases hc2 : ¬o.container_matrix = "" ∧ k = o.container_matrix
      · rw [if_pos hc2] at hlk
        cases hv2 : lookupA w.matrix_contents k with
        | none => rw [hv2] at hlk; cases hlk
        | some l0 =>
            rw [hv2] at hlk
            simp only [Option.map_some', Option.some.injEq] at hlk
            subst hlk
            have hbad := (List.mem_filter.mp hmem).2
            simp at hbad
      · rw [if_neg hc2] at hlk
        have huniq := (hcont oid o hobj hhc).2 k l2 hlk hmem
        by_cases hcm : o.container_matrix = ""
        · rw [huniq, hcm, hemp] at hlk
          cases hlk
        · exact hc2 ⟨hcm, huniq⟩
    refine ⟨?_, ?_, ?_, ?_, ?_⟩
    · rw [show keysA (setObj w.objects oid ({ o with container_matrix := mid }))
          = keysA w.objects from keysA_mapAt _ _ _]
      exact hnd1
    · rw [show keysA (addTo base mid oid) = keysA base from keysA_mapAt _ _ _,
        hbase]
      by_cases hcm : o.container_matrix = ""
      · rw [if_pos hcm]
        exact hnd2
      · rw [if_neg hcm,
          show keysA (discardFrom w.matrix_contents o.container_matrix oid)
            = keysA w.matrix_contents from keysA_mapAt _ _ _]
        exact hnd2
    · rw [hfin_lookup "", if_neg (fun h => hmidne h.symm), hbase_lookup "",
        if_neg (by rintro ⟨h1, h2⟩; exact h1 h2.symm)]
      exact hemp
    · intro oid2 o2 hobj2 hhc2
      rw [setObj, lookupA_mapAt] at hobj2
      by_cases hx : oid2 = oid
      · rw [if_pos hx, hx, hobj] at hobj2
        simp only [Option.map_some', Option.some.injEq] at hobj2
        subst hobj2
        subst hx
        constructor
        · intro _
          exact hoid_mem
        · intro mid2 l2 hlk hmem
          by_cases hk : mid2 = mid
          · exact hk
          · exact absurd hmem (hoid_only mid2 l2 hk hlk)
      · rw [if_neg hx] at hobj2
        have hold := hcont oid2 o2 hobj2 hhc2
        constructor
        · intro hne
          obtain ⟨l0, hl0, hm0⟩ := hold.1 hne
          exact hfwd o2.container_matrix l0 oid2 hl0 hm0 hx
        · intro mid2 l2 hlk hmem
          rcases hback mid2 l2 oid2 hlk hmem with h | ⟨l0, hl0, hm0⟩
          · exact absurd h hx
          · exact hold.2 mid2 l0 hl0 hm0
    · intro mid2 l2 hlk oid2 hmem
      rw [show (lookupA (setObj w.objects oid
            ({ o with container_matrix := mid })) oid2).isSome
          = (lookupA w.objects oid2).isSome from isSome_lookupA_mapAt _ _ _ _]
      rcases hback mid2 l2 oid2 hlk hmem with h | ⟨l0, hl0, hm0⟩
      · rw [h, hobj]
        rfl
      · exact hexist mid2 l0 hl0 oid2 hm0
  · have hhcf : hasContainer o.kind = false := by
      cases hb : hasContainer o.kind
      · rfl
      · exact absurd hb hhc
    rw [place_valid_eq_nocontainer w oid mid o hobj hhcf hmid]
    have hfin_lookup : ∀ k, lookupA (addTo w.matrix_contents mid oid) k
        = if k = mid
          then (lookupA w.matrix_contents k).map
            (fun l => if oid ∈ l then l else l ++ [oid])
          else lookupA w.matrix_contents k := by
      intro k
      rw [addTo, lookupA_mapAt]
    refine ⟨hnd1, ?_, ?_, ?_, ?_⟩
    · rw [show keysA (addTo w.matrix_contents mid oid) = keysA w.matrix_contents
          from keysA_mapAt _ _ _]
      exact hnd2
    · rw [hfin_lookup "", if_neg (fun h => hmidne h.symm)]
      exact hemp
    · intro oid2 o2 hobj2 hhc2
      have hx : ¬oid2 = oid := by
        intro h
        rw [h, hobj] at hobj2
        simp only [Option.some.injEq] at hobj2
        rw [← hobj2] at hhc2
        rw [hhcf] at hhc2
        cases hhc2
      have hold := hcont oid2 o2 hobj2 hhc2
      constructor
      · intro hne
        obtain ⟨l0, hl0, hm0⟩ := hold.1 hne
        rw [hfin_lookup o2.container_matrix]
        by_cases hk : o2.container_matrix = mid
        · rw [if_pos hk, hl0]
          exact ⟨_, rfl, (mem_insert_fn l0 oid oid2).mpr (Or.inl hm0)⟩
        · rw [if_neg hk, hl0]
          exact ⟨l0, rfl, hm0⟩
      · intro mid2 l2 hlk hmem
        rw [hfin_lookup mid2] at hlk
        by_cases hk : mid2 = mid
        · rw [if_pos hk] at hlk
          cases hv2 : lookupA w.matrix_contents mid2 with
          | none => rw [hv2] at hlk; cases hlk
          | some l0 =>
              rw [hv2] at hlk
              simp only [Option.map_some', Option.some.injEq] at hlk
              subst hlk
              rcases (mem_insert_fn l0 oid oid2).mp hmem with hm | hm
              · exact hold.2 mid2 l0 hv2 hm
              · exact absurd hm hx
        · rw [if_neg hk] at hlk
          exact hold.2 mid2 l2 hlk hmem
    · intro mid2 l2 hlk oid2 hmem
      rw [hfin_lookup mid2] at hlk
      by_cases hk : mid2 = mid
      · rw [if_pos hk] at hlk
        cases hv2 : lookupA w.matrix_contents mid2 with
        | none => rw [hv2] at hlk; cases hlk
        | some l0 =>
            rw [hv2] at hlk
            simp only [Option.map_some', Option.some.injEq] at hlk
            subst hlk
            rcases (mem_insert_fn l0 oid oid2).mp hmem with hm | hm
            · exact hexist mid2 l0 hv2 oid2 hm
            · rw [hm, hobj]
              rfl
      · rw [if_neg hk] at hlk
        exact hexist mid2 l2 hlk oid2 hmem

theorem lookupA_append_some {α : Type} (l1 l2 : List (String × α)) (k : String)
    (v : α) (h : lookupA l1 k = some v) : lookupA (l1 ++ l2) k = some v := by
  rw [lookupA_append, h]

theorem lookupA_append_none {α : Type} (l1 l2 : List (String × α)) (k : String)
    (h : lookupA l1 k = none) : lookupA (l1 ++ l2) k = lookupA l2 k := by
  rw [lookupA_append, h]

theorem lookupA_singleton {α : Type} (a k : String) (v : α) :
    lookupA [(a, v)] k = if a = k then some v else none := by
  simp [lookupA]

theorem isSome_lookupA_append {α : Type} (l1 l2 : List (String × α)) (k : String)
    (h : (lookupA l1 k).isSome = true) :
    (lookupA (l1 ++ l2) k).isSome = true := by
  cases hv : lookupA l1 k with
  | none => rw [hv] at h; cases h
  | some v => rw [lookupA_append_some l1 l2 k v hv]; rfl

theorem nodup_snoc (l : List String) (x : String) (h1 : l.Nodup)
    (h2 : x ∉ l) : (l ++ [x]).Nodup := by
  rw [List.nodup_append]
  refine ⟨h1, List.nodup_singleton x, ?_⟩
  intro a ha hb
  rw [List.mem_singleton] at hb
  subst hb
  exact h2 ha

theorem invW_remove (w : World) (oid : String) (hInv : InvW w) :
    InvW (remove_from_matrix w oid).1 := by
  obtain ⟨hnd1, hnd2, hemp, hcont, hexist⟩ := hInv
  cases hobj : lookupA w.objects oid with
  | none =>
      rw [show (remove_from_matrix w oid).1 = w from by
        simp [remove_from_matrix, hobj]]
      exact ⟨hnd1, hnd2, hemp, hcont, hexist⟩
  | some o =>
      by_cases hc : hasContainer o.kind = true ∧ o.container_matrix ≠ ""
      case neg =>
        rw [show (remove_from_matrix w oid).1 = w from by
          simp only [remove_from_matrix, hobj]
          rw [if_neg hc]]
        exact ⟨hnd1, hnd2, hemp, hcont, hexist⟩
      case pos =>
        obtain ⟨hhc, hcm⟩ := hc
        rw [show (remove_from_matrix w oid).1
            = { w with
                objects := setObj w.objects oid ({ o with container_matrix := "" }),
                matrix_contents :=
                  discardFrom w.matrix_contents o.container_matrix oid } from by
          simp only [remove_from_matrix, hobj]
          rw [if_pos ⟨hhc, hcm⟩]]
        have hfin_lookup : ∀ k,
            lookupA (discardFrom w.matrix_contents o.container_matrix oid) k
            = if k = o.container_matrix
              then (lookupA w.matrix_contents k).map
                (fun l => l.filter (fun x => x ≠ oid))
              else lookupA w.matrix_contents k := by
          intro k
          rw [discardFrom, lookupA_mapAt]
        have hback : ∀ k l2 x,
            lookupA (discardFrom w.matrix_contents o.container_matrix oid) k
              = some l2 → x ∈ l2 →
            ∃ l0, lookupA w.matrix_contents k = some l0 ∧ x ∈ l0 := by
          intro k l2 x hlk hx
          rw [hfin_lookup k] at hlk
          by_cases hk : k = o.container_matrix
          · rw [if_pos hk] at hlk
            cases hv2 : lookupA w.matrix_contents k with
            | none => rw [hv2] at hlk; cases hlk
            | some l0 =>
                rw [hv2] at hlk
                simp only [Option.map_some', Option.some.injEq] at hlk
                subst hlk
                exact ⟨l0, rfl, (List.mem_filter.mp hx).1⟩
          · rw [if_neg hk] at hlk
            exact ⟨l2, hlk, hx⟩
        have hnomem : ∀ k l2,
            lookupA (discardFrom w.matrix_contents o.container_matrix oid) k
              = some l2 → oid ∉ l2 := by
          intro k l2 hlk hmem
          rw [hfin_lookup k] at hlk
          by_cases hk : k = o.container_matrix
          · rw [if_pos hk] at hlk
            cases hv2 : lookupA w.matrix_contents k with
            | none => rw [hv2] at hlk; cases hlk
            | some l0 =>
                rw [hv2] at hlk
                simp only [Option.map_some', Option.some.injEq] at hlk
                subst hlk
                have hbad := (List.mem_filter.mp hmem).2
                simp at hbad
          · rw [if_neg hk] at hlk
            exact hk ((hcont oid o hobj hhc).2 k l2 hlk hmem)
        refine ⟨?_, ?_, ?_, ?_, ?_⟩
        · rw [show keysA (setObj w.objects oid ({ o with container_matrix := "" }))
              = keysA w.objects from keysA_mapAt _ _ _]
          exact hnd1
        · rw [show keysA (discardFrom w.matrix_contents o.container_matrix oid)
              = keysA w.matrix_contents from keysA_mapAt _ _ _]
          exact hnd2
        · rw [hfin_lookup "", if_neg (fun h => hcm h.symm)]
          exact hemp
        · intro oid2 o2 hobj2 hhc2
          rw [setObj, lookupA_mapAt] at hobj2
          by_cases hx : oid2 = oid
          · rw [if_pos hx, hx, hobj] at hobj2
            simp only [Option.map_some', Option.some.injEq] at hobj2
            subst hobj2
            subst hx
            constructor
            · intro hbad
              exact absurd rfl hbad
            · intro mid2 l2 hlk hmem
              exact absurd hmem (hnomem mid2 l2 hlk)
          · rw [if_neg hx] at hobj2
            have hold := hcont oid2 o2 hobj2 hhc2
            constructor
            · intro hne
              obtain ⟨l0, hl0, hm0⟩ := hold.1 hne
              rw [hfin_lookup o2.container_matrix]
              by_cases hk : o2.container_matrix = o.container_matrix
              · rw [if_pos hk, hl0]
                refine ⟨_, rfl, List.mem_filter.mpr ⟨hm0, by simpa using hx⟩⟩
              · rw [if_neg hk, hl0]
                exact ⟨l0, rfl, hm0⟩
            · intro mid2 l2 hlk hmem
              obtain ⟨l0, hl0, hm0⟩ := hback mid2 l2 oid2 hlk hmem
              exact hold.2 mid2 l0 hl0 hm0
        · intro mid2 l2 hlk oid2 hmem
          rw [show (lookupA (setObj w.objects oid
                ({ o with container_matrix := "" })) oid2).isSome
              = (lookupA w.objects oid2).isSome from isSome_lookupA_mapAt _ _ _ _]
          obtain ⟨l0, hl0, hm0⟩ := hback mid2 l2 oid2 hlk hmem
          exact hexist mid2 l0 hl0 oid2 hm0

theorem invW_createMatrix (w : World) (mid : String) (hInv : InvW w) :
    InvW (stepW w (WOp.createMatrixOp mid)) := by
  obtain ⟨hnd1, hnd2, hemp, hcont, hexist⟩ := hInv
  simp only [stepW]
  split
  case isTrue hgd =>
    obtain ⟨hne, hfro, hfrc⟩ := hgd
    refine ⟨?_, ?_, ?_, ?_, ?_⟩
    · rw [keysA_append]
      exact nodup_snoc _ _ hnd1 ((lookupA_eq_none_iff _ _).mp hfro)
    · rw [keysA_append]
      exact nodup_snoc _ _ hnd2 ((lookupA_eq_none_iff _ _).mp hfrc)
    · rw [lookupA_append_none _ _ _ hemp, lookupA_singleton,
        if_neg (fun h => hne h)]
    · intro oid2 o2 hobj2 hhc2
      rw [lookupA_append] at hobj2
      cases hv : lookupA w.objects oid2 with
      | some o2w =>
          rw [hv] at hobj2
          simp only [Option.some.injEq] at hobj2
          subst hobj2
          have hold := hcont oid2 o2w hv hhc2
          constructor
          · intro hne2
            obtain ⟨l0, hl0, hm0⟩ := hold.1 hne2
            exact ⟨l0, lookupA_append_some _ _ _ _ hl0, hm0⟩
          · intro mid2 l2 hlk hmem
            rw [lookupA_append] at hlk
            cases hv2 : lookupA w.matrix_contents mid2 with
            | some l2w =>
                rw [hv2] at hlk
                simp only [Option.some.injEq] at hlk
                subst hlk
                exact hold.2 mid2 l2w hv2 hmem
            | none =>
                rw [hv2] at hlk
                simp only [lookupA_singleton] at hlk
                by_cases hk : mid = mid2
                · rw [if_pos hk] at hlk
                  simp only [Option.some.injEq] at hlk
                  subst hlk
                  cases hmem
                · rw [if_neg hk] at hlk
                  cases hlk
      | none =>
          rw [hv] at hobj2
          simp only [lookupA_singleton] at hobj2
          by_cases hk : mid = oid2
          · rw [if_pos hk] at hobj2
            simp only [Option.some.injEq] at hobj2
            subst hobj2
            cases hhc2
          · rw [if_neg hk] at hobj2
            cases hobj2
    · intro mid2 l2 hlk oid2 hmem
      rw [lookupA_append] at hlk
      cases hv2 : lookupA w.matrix_contents mid2 with
      | some l2w =>
          rw [hv2] at hlk
          simp only [Option.some.injEq] at hlk
          subst hlk
          exact isSome_lookupA_append _ _ _ (hexist mid2 l2w hv2 oid2 hmem)
      | none =>
          rw [hv2] at hlk
          simp only [lookupA_singleton] at hlk
          by_cases hk : mid = mid2
          · rw [if_pos hk] at hlk
            simp only [Option.some.injEq] at hlk
            subst hlk
            cases hmem
          · rw [if_neg hk] at hlk
            cases hlk
  case isFalse =>
    exact ⟨hnd1, hnd2, hemp, hcont, hexist⟩

theorem invW_createObj (w : World) (oid : String) (k : ObjKind) (hInv : InvW w) :
    InvW (stepW w (WOp.createObjOp oid k)) := by
  obtain ⟨hnd1, hnd2, hemp, hcont, hexist⟩ := hInv
  simp only [stepW]
  split
  case isTrue hgd =>
    obtain ⟨hkm, hfro⟩ := hgd
    refine ⟨?_, hnd2, hemp, ?_, ?_⟩
    · rw [keysA_append]
      exact nodup_snoc _ _ hnd1 ((lookupA_eq_none_iff _ _).mp hfro)
    · intro oid2 o2 hobj2 hhc2
      rw [lookupA_append] at hobj2
      cases hv : lookupA w.objects oid2 with
      | some o2w =>
          rw [hv] at hobj2
          simp only [Option.some.injEq] at hobj2
          subst hobj2
          exact hcont oid2 o2w hv hhc2
      | none =>
          rw [hv] at hobj2
          simp only [lookupA_singleton] at hobj2
          by_cases hk2 : oid = oid2
          · rw [if_pos hk2] at hobj2
            simp only [Option.some.injEq] at hobj2
            subst hobj2
            constructor
            · intro hbad
              exact absurd rfl hbad
            · intro mid2 l2 hlk hmem
              subst hk2
              have := hexist mid2 l2 hlk oid hmem
              rw [hv] at this
              cases this
          · rw [if_neg hk2] at hobj2
            cases hobj2
    · intro mid2 l2 hlk oid2 hmem
      exact isSome_lookupA_append _ _ _ (hexist mid2 l2 hlk oid2 hmem)
  case isFalse =>
    exact ⟨hnd1, hnd2, hemp, hcont, hexist⟩

theorem invW_step (w : World) (op : WOp) (hInv : InvW w)
    (hvalid : validOpHead w op = true) : InvW (stepW w op) := by
  cases op with
  | createMatrixOp mid => exact invW_createMatrix w mid hInv
  | createObjOp oid k => exact invW_createObj w oid k hInv
  | placeOp oid mid =>
      simp only [validOpHead, Bool.and_eq_true] at hvalid
      exact invW_place w oid mid hInv hvalid.1 hvalid.2
  | removeOp oid => exact invW_remove w oid hInv

theorem invW_run (ops : List WOp) (w : World) (hInv : InvW w)
    (hvalid : validOpsB w ops = true) : InvW (runW w ops) := by
  induction ops generalizing w with
  | nil => exact hInv
  | cons op rest ih =>
      simp only [validOpsB, Bool.and_eq_true] at hvalid
      exact ih (stepW w op) (invW_step w op hInv hvalid.1) hvalid.2


/-- The property carried along a run for one objid: it is registered, and if
it is an Agent, Token or Key its back-reference is nonempty. -/
def ownedP (w : World) (oid : String) : Prop :=
  (lookupA w.objects oid).isSome = true
  ∧ ∀ o, lookupA w.objects oid = some o → hasContainer o.kind = true →
      ¬o.container_matrix = ""

theorem place_ownedP (w : World) (oid mid : String) (hInv : InvW w)
    (hoid : (lookupA w.objects oid).isSome = true)
    (hmid : (lookupA w.matrix_contents mid).isSome = true) :
    ownedP (place_in_matrix w oid mid) oid := by
  have hmidne : ¬mid = "" := by
    intro h
    rw [h, hInv.2.2.1] at hmid
    cases hmid
  obtain ⟨o, hobj⟩ : ∃ o, lookupA w.objects oid = some o := by
    cases hv : lookupA w.objects oid with
    | none => rw [hv] at hoid; cases hoid
    | some o => exact ⟨o, rfl⟩
  by_cases hhc : hasContainer o.kind = true
  · rw [place_valid_eq_container w oid mid o hobj hhc hmid]
    have hlook : lookupA (setObj w.objects oid
        ({ o with container_matrix := mid })) oid
        = some { o with container_matrix := mid } := by
      rw [setObj, lookupA_mapAt, if_pos rfl, hobj]
      rfl
    constructor
    · rw [hlook]
      rfl
    · intro o2 h2 _
      rw [hlook] at h2
      simp only [Option.some.injEq] at h2
      subst h2
      exact hmidne
  · have hhcf : hasContainer o.kind = false := by
      cases hb : hasContainer o.kind
      · rfl
      · exact absurd hb hhc
    rw [place_valid_eq_nocontainer w oid mid o hobj hhcf hmid]
    constructor
    · rw [hobj]
      rfl
    · intro o2 h2 hc2
      rw [hobj] at h2
      simp only [Option.some.injEq] at h2
      rw [← h2] at hc2
      rw [hhcf] at hc2
      cases hc2
  -- wait: last rewrite chain: h2 : o = o2; hc2 : hasContainer o2.kind = true

theorem step_ownedP (w : World) (op : WOp) (oid : String) (hInv : InvW w)
    (hvalid : validOpHead w op = true)
    (hnorem : (match op with
      | WOp.removeOp oid2 => oid2 ≠ oid
      | _ => True)) (hP : ownedP w oid) : ownedP (stepW w op) oid := by
  obtain ⟨hoid, hcontainer⟩ := hP
  obtain ⟨o, hobj⟩ : ∃ o, lookupA w.objects oid = some o := by
    cases hv : lookupA w.objects oid with
    | none => rw [hv] at hoid; cases hoid
    | some o => exact ⟨o, rfl⟩
  cases op with
  | createMatrixOp mid =>
      simp only [stepW]
      split
      · constructor
        · rw [lookupA_append_some _ _ _ _ hobj]
          rfl
        · intro o2 h2 hc2
          rw [lookupA_append_some _ _ _ _ hobj] at h2
          simp only [Option.some.injEq] at h2
          subst h2
          exact hcontainer o hobj hc2
      · exact ⟨hoid, hcontainer⟩
  | createObjOp oid2 k =>
      simp only [stepW]
      split
      · constructor
        · rw [lookupA_append_some _ _ _ _ hobj]
          rfl
        · intro o2 h2 hc2
          rw [lookupA_append_some _ _ _ _ hobj] at h2
          simp only [Option.some.injEq] at h2
          subst h2
          exact hcontainer o hobj hc2
      · exact ⟨hoid, hcontainer⟩
  | placeOp oid2 mid2 =>
      simp only [validOpHead, Bool.and_eq_true] at hvalid
      by_cases hx : oid2 = oid
      · subst hx
        exact place_ownedP w oid2 mid2 hInv hvalid.1 hvalid.2
      · obtain ⟨o2, hobj2⟩ : ∃ o2, lookupA w.objects oid2 = some o2 := by
          cases hv : lookupA w.objects oid2 with
          | none => rw [hv] at hvalid; exact absurd hvalid.1 (by simp)
          | some o2 => exact ⟨o2, rfl⟩
        by_cases hhc2 : hasContainer o2.kind = true
        · rw [show stepW w (WOp.placeOp oid2 mid2)
              = place_in_matrix w oid2 mid2 from rfl,
            place_valid_eq_container w oid2 mid2 o2 hobj2 hhc2 hvalid.2]
          have hlook : lookupA (setObj w.objects oid2
              ({ o2 with container_matrix := mid2 })) oid
              = lookupA w.objects oid := by
            rw [setObj, lookupA_mapAt, if_neg (fun h => hx h.symm)]
          constructor
          · rw [hlook, hobj]
            rfl
          · intro o3 h3 hc3
            rw [hlook] at h3
            exact hcontainer o3 h3 hc3
        · have hhcf2 : hasContainer o2.kind = false := by
            cases hb : hasContainer o2.kind
            · rfl
            · exact absurd hb hhc2
          rw [show stepW w (WOp.placeOp oid2 mid2)
              = place_in_matrix w oid2 mid2 from rfl,
            place_valid_eq_nocontainer w oid2 mid2 o2 hobj2 hhcf2 hvalid.2]
          exact ⟨hoid, hcontainer⟩
  | removeOp oid2 =>
      simp only at hnorem
      simp only [stepW]
      cases hobj2 : lookupA w.objects oid2 with
      | none =>
          rw [show (remove_from_matrix w oid2).1 = w from by
            simp [remove_from_matrix, hobj2]]
          exact ⟨hoid, hcontainer⟩
      | some o2 =>
          by_cases hc2 : hasContainer o2.kind = true ∧ o2.container_matrix ≠ ""
          · rw [show (remove_from_matrix w oid2).1
                = { w with
                    objects := setObj w.objects oid2
                      ({ o2 with container_matrix := "" }),
                    matrix_contents :=
                      discardFrom w.matrix_contents o2.container_matrix oid2 }
              from by
                simp only [remove_from_matrix, hobj2]
                rw [if_pos hc2]]
            have hlook : lookupA (setObj w.objects oid2
                ({ o2 with container_matrix := "" })) oid
                = lookupA w.objects oid := by
              rw [setObj, lookupA_mapAt, if_neg (fun h => hnorem h.symm)]
            constructor
            · rw [hlook, hobj]
              rfl
            · intro o3 h3 hc3
              rw [hlook] at h3
              exact hcontainer o3 h3 hc3
          · rw [show (remove_from_matrix w oid2).1 = w from by
              simp only [remove_from_matrix, hobj2]
              rw [if_neg hc2]]
            exact ⟨hoid, hcontainer⟩

theorem ownedP_run (rest : List WOp) (w : World) (oid : String)
    (hInv : InvW w) (hvalid : validOpsB w rest = true)
    (hnorem : noRemoveOf oid rest = true) (hP : ownedP w oid) :
    ownedP (runW w rest) oid := by
  induction rest generalizing w with
  | nil => exact hP
  | cons op rest2 ih =>
      simp only [validOpsB, Bool.and_eq_true] at hvalid
      simp only [noRemoveOf, Bool.and_eq_true] at hnorem
      refine ih (stepW w op) (invW_step w op hInv hvalid.1) hvalid.2 hnorem.2 ?_
      apply step_ownedP w op oid hInv hvalid.1 ?_ hP
      cases op with
      | removeOp oid2 =>
          have := hnorem.1
          simp only [decide_eq_true_eq] at this
          exact this
      | createMatrixOp mid => trivial
      | createObjOp oid2 k => trivial
      | placeOp oid2 mid2 => trivial

theorem placed_gives_ownedP (ops : List WOp) (w : World) (oid : String)
    (hInv : InvW w) (hvalid : validOpsB w ops = true)
    (hplaced : placedNotRemovedB oid ops = true) :
    ownedP (runW w ops) oid := by
  induction ops generalizing w with
  | nil => cases hplaced
  | cons op rest ih =>
      simp only [validOpsB, Bool.and_eq_true] at hvalid
      simp only [placedNotRemovedB, Bool.or_eq_true] at hplaced
      rcases hplaced with hhead | hrest
      · cases op with
        | placeOp oid2 mid2 =>
            simp only [Bool.and_eq_true, decide_eq_true_eq] at hhead
            obtain ⟨hoe, hnr⟩ := hhead
            subst hoe
            simp only [validOpHead, Bool.and_eq_true] at hvalid
            refine ownedP_run rest _ oid2
              (invW_place w oid2 mid2 hInv hvalid.1.1 hvalid.1.2)
              hvalid.2 hnr ?_
            exact place_ownedP w oid2 mid2 hInv hvalid.1.1 hvalid.1.2
        | createMatrixOp mid => simp at hhead
        | createObjOp oid2 k => simp at hhead
        | removeOp oid2 => simp at hhead
      · exact ih (stepW w op) (invW_step w op hInv hvalid.1) hvalid.2 hrest

theorem countP_mem_one (c : List (String × List String)) (oid mid : String)
    (l : List String) (hnd : (keysA c).Nodup)
    (hmem : lookupA c mid = some l) (hin : oid ∈ l)
    (huniq : ∀ m2 l2, lookupA c m2 = some l2 → oid ∈ l2 → m2 = mid) :
    c.countP (fun e => decide (oid ∈ e.2)) = 1 := by
  induction c with
  | nil => cases hmem
  | cons e rest ih =>
      simp only [keysA, List.map_cons, List.nodup_cons] at hnd
      by_cases hk : e.1 = mid
      · have hval : e.2 = l := by
          have h2 : lookupA (e :: rest) mid = some e.2 := by
            simp [lookupA, hk]
          rw [hmem] at h2
          exact (Option.some.inj h2).symm
        rw [List.countP_cons]
        have hpe : decide (oid ∈ e.2) = true := by
          rw [hval]
          exact decide_eq_true hin
        rw [hpe]
        have hz : rest.countP (fun e => decide (oid ∈ e.2)) = 0 := by
          rw [List.countP_eq_zero]
          intro f hf hpf
          rw [decide_eq_true_eq] at hpf
          have hlf : lookupA rest f.1 = some f.2 := lookupA_of_mem_nodup hnd.2 hf
          have hne : ¬e.1 = f.1 := by
            intro hh
            exact hnd.1 (hh ▸ List.mem_map_of_mem Prod.fst hf)
          have hlf2 : lookupA (e :: rest) f.1 = some f.2 := by
            simp only [lookupA, if_neg hne]
            exact hlf
          have hfm := huniq f.1 f.2 hlf2 hpf
          apply hnd.1
          rw [hk, ← hfm]
          exact List.mem_map_of_mem Prod.fst hf
        rw [hz]
        rfl
      · have hmem2 : lookupA rest mid = some l := by
          have h2 : lookupA (e :: rest) mid = lookupA rest mid := by
            simp only [lookupA, if_neg hk]
          rw [← h2]
          exact hmem
        have hpe : decide (oid ∈ e.2) = false := by
          rw [decide_eq_false_iff_not]
          intro hmm
          have hle : lookupA (e :: rest) e.1 = some e.2 := by
            simp [lookupA]
          exact hk (huniq e.1 e.2 hle hmm)
        rw [List.countP_cons, hpe]
        simp only [Bool.false_eq_true, if_false, Nat.add_zero]
        apply ih hnd.2 hmem2
        intro m2 l2 hl2 hin2
        have hne : ¬e.1 = m2 := by
          intro hh
          apply hnd.1
          rw [hh]
          exact List.mem_map_of_mem Prod.fst (lookupA_mem hl2)
        apply huniq m2 l2 ?_ hin2
        simp only [lookupA, if_neg hne]
        exact hl2


/-- C2 (amended): for every sequence of World operations starting from the
empty world in which each place_in_matrix call names an already registered
object and an existing matrix, and for every objid that afterwards names an
Agent, Token or Key and has been placed at least once and not subsequently
removed, the objid appears in exactly one matrix's reverse index — never zero,
never two — and that matrix is the object's container_matrix back-reference. -/
theorem c2_containment_invariant (ops : List WOp) (oid : String) (o : Obj)
    (hvalid : validOpsB emptyW ops = true)
    (hplaced : placedNotRemovedB oid ops = true)
    (hobj : lookupA (runW emptyW ops).objects oid = some o)
    (hhc : hasContainer o.kind = true) :
    (runW emptyW ops).matrix_contents.countP (fun e => decide (oid ∈ e.2)) = 1
    ∧ ∃ l, lookupA (runW emptyW ops).matrix_contents o.container_matrix
        = some l ∧ oid ∈ l := by
  have hInv := invW_run ops emptyW invW_empty hvalid
  have hP := placed_gives_ownedP ops emptyW oid invW_empty hvalid hplaced
  have hcm : ¬o.container_matrix = "" := hP.2 o hobj hhc
  obtain ⟨hnd1, hnd2, hemp, hcont, hexist⟩ := hInv
  have hfacts := hcont oid o hobj hhc
  obtain ⟨l, hl, hin⟩ := hfacts.1 hcm
  exact ⟨countP_mem_one _ oid o.container_matrix l hnd2 hl hin hfacts.2,
    ⟨l, hl, hin⟩⟩

/-- Operation sequence A for the C2 counterexample: token t1 is placed into
the existing matrix m1 and then into the nonexistent matrix id m99. -/
def c2OpsA : List WOp :=
  [WOp.createMatrixOp "m1", WOp.createObjOp "t1" ObjKind.token,
   WOp.placeOp "t1" "m1", WOp.placeOp "t1" "m99"]

/-- Operation sequence B for the C2 counterexample: t1 is placed into the
existing matrix m1 before the objid has been registered, and registered after. -/
def c2OpsB : List WOp :=
  [WOp.createMatrixOp "m1", WOp.placeOp "t1" "m1",
   WOp.createObjOp "t1" ObjKind.token]

/-- C2 counterexample: both scenarios end with an existing Token t1 that has
been placed at least once and never removed, yet in sequence A the objid
appears in ZERO reverse indices (its back-reference dangling at m99), and in
sequence B it appears in exactly one reverse index (m1) while its
back-reference is empty, not m1 — refuting the claim as stated for sequences
whose placements may name a nonexistent matrix or a not-yet-registered objid. -/
theorem c2_counterexample :
    (placedNotRemovedB "t1" c2OpsA = true
     ∧ lookupA (runW emptyW c2OpsA).objects "t1"
         = some { kind := ObjKind.token, container_matrix := "m99" }
     ∧ (runW emptyW c2OpsA).matrix_contents.countP
         (fun e => decide ("t1" ∈ e.2)) = 0)
    ∧ (placedNotRemovedB "t1" c2OpsB = true
       ∧ lookupA (runW emptyW c2OpsB).objects "t1"
           = some { kind := ObjKind.token, container_matrix := "" }
       ∧ lookupA (runW emptyW c2OpsB).matrix_contents "m1" = some ["t1"]
       ∧ (runW emptyW c2OpsB).matrix_contents.countP
           (fun e => decide ("t1" ∈ e.2)) = 1) := by
  exact ⟨⟨by decide, rfl, rfl⟩, ⟨by decide, rfl, rfl, rfl⟩⟩

/-- Operation sequence for the C2 witness: t1 created, then placed into m1. -/
def c2OpsW : List WOp :=
  [WOp.createMatrixOp "m1", WOp.createObjOp "t1" ObjKind.token,
   WOp.placeOp "t1" "m1"]

/-- Witness for c2_containment_invariant on a concrete valid sequence. -/
theorem c2_witness :
    (runW emptyW c2OpsW).matrix_contents.countP
      (fun e => decide ("t1" ∈ e.2)) = 1 :=
  (c2_containment_invariant c2OpsW "t1"
    { kind := ObjKind.token, container_matrix := "m1" }
    (by decide) (by decide) (by decide) rfl).1

end TileNet
